import Mathlib

/-!
# Water level sensor firmware (`src/water_level/src/main.cpp`)

A shallow embedding of the sampling / averaging state machine of the firmware, with the
properties proved of it.

Modelling conventions.

* The target is a 32-bit board: `float` is IEEE-754 binary32, `double` binary64, `int`,
  `long` and `unsigned long` have 32 bits.
* C++ `float` and `double` values are the rational numbers they denote.  Every
  arithmetic operation of the source is the exact rational operation followed by
  the rounding of its result type (`fl32` for `float`, `fl64` for `double`, round to
  nearest, ties to even).  Infinities and NaN are not represented: no operation of
  the program overflows or divides by zero on the values it handles.
* `int` variables are integers (`ℤ`); the counters never leave `[0, 15]` in the
  states the program reaches.  `unsigned long` clock values are naturals below
  `2 ^ 32` and their subtraction wraps modulo `2 ^ 32`.
* `pulseIn` and `millis` are inputs: every function that reads the echo line or
  the clock takes the value read as an argument.
* `Serial` output is a list of abstract events appended to the state.
* A write outside the 15-slot buffer is undefined behaviour: the function that
  would do it returns `none`.
-/

namespace WaterLevel

/-! ## Floating point rounding -/

/-- Nearest integer to `q`, a tie going to the even neighbour. -/
def roundHalfEven (q : ℚ) : ℤ :=
  let f := ⌊q⌋
  if q - f < 1 / 2 then f
  else if 1 / 2 < q - f then f + 1
  else if f % 2 = 0 then f else f + 1

/-- Position of the leading bit of `n`, by repeated halving; `fuel` bounds the number of
halvings and any `fuel ≥ n` is enough. -/
def ilog2 : ℕ → ℕ → ℕ
  | 0, _ => 0
  | fuel + 1, n => if n < 2 then 0 else ilog2 fuel (n / 2) + 1

/-- The binary exponent of a non-zero `q`: the `e` with `2 ^ e ≤ |q| < 2 ^ (e + 1)`, found
from the bit lengths of numerator and denominator. -/
def binade (q : ℚ) : ℤ :=
  let e : ℤ := (ilog2 q.num.natAbs q.num.natAbs : ℤ) - (ilog2 q.den q.den : ℤ)
  if |q| < (2 : ℚ) ^ e then e - 1 else e

/-- Rounding to the binary floating point format with `p` significand bits and least
normal exponent `emin`: the exponent of `q` (or `emin` in the subnormal range) fixes
the spacing `ulp` of the representable numbers around `q`, and `q` goes to the nearest
multiple of `ulp`, ties to even. -/
def roundBin (p : ℕ) (emin : ℤ) (q : ℚ) : ℚ :=
  let e := max (binade q) emin
  let ulp : ℚ := (2 : ℚ) ^ (e - ((p : ℤ) - 1))
  (roundHalfEven (q / ulp) : ℚ) * ulp

/-- Rounding to IEEE-754 binary32, the C++ `float`. -/
def fl32 (q : ℚ) : ℚ := roundBin 24 (-126) q

/-- Rounding to IEEE-754 binary64, the C++ `double`. -/
def fl64 (q : ℚ) : ℚ := roundBin 53 (-1022) q

/-- Conversion `int(x)` of a floating point value: truncation toward zero.  (Outside
the range of `int` the target saturates; after the clamp of `getWaterLevel` that is
the same as the mathematical truncation used here.) -/
def toInt (x : ℚ) : ℤ := if 0 ≤ x then ⌊x⌋ else ⌈x⌉

/-! ## Constants and state (lines 3-27) -/

/-- Source constant `const float sensor_height = 200.0`. -/
def sensor_height : ℚ := fl32 200

/-- Source constant `const float glass_height = 104.0`. -/
def glass_height : ℚ := fl32 104

/-- Source constant `const float sound_speed = 0.343`: the double literal rounded to float. -/
def sound_speed : ℚ := fl32 (fl64 (343 / 1000))

/-- Source constant `const int NUM_SAMPLES = 15`. -/
def NUM_SAMPLES : ℤ := 15

/-- Source constant `const int MEASUREMENT_INTERVAL_MS = 200`. -/
def MEASUREMENT_INTERVAL_MS : ℤ := 200

/-- Source enumeration `enum MeasurementState`. -/
inductive MeasurementState where
  | IDLE
  | MEASURING
  | READY
  deriving DecidableEq, Repr

/-- What the firmware writes to `Serial`, one event per group of `print` calls. -/
inductive SerialEvent where
  /-- the banner of `setup` -/
  | banner
  /-- the mark "." of a valid sample -/
  | dot
  /-- the mark "x" of an invalid sample -/
  | cross
  /-- the line "OK: validCount/15 | Range: min-max mm | Avg: avg mm" -/
  | ok (validCount : ℤ) (minVal maxVal avg : ℚ)
  /-- the line "FAIL: Only validCount/15" -/
  | fail (validCount : ℤ)
  /-- the line ">>> Water Level: p% <<<" -/
  | level (p : ℤ)
  deriving DecidableEq, Repr

/-- The global `ctx` of the source, with the `Serial` output so far as last field. -/
structure Ctx where
  state : MeasurementState
  measurements : List ℚ
  sampleCount : ℤ
  lastMeasureTime : ℕ
  lastDisplayTime : ℕ
  lastValidAvg : ℚ
  measurementErrors : ℤ
  serial : List SerialEvent
  deriving DecidableEq, Repr

/-- The context at power-up: the member initialisers of lines 20-26, the buffer
zero-initialised as every object of static storage. -/
def initCtx : Ctx :=
  { state := MeasurementState.IDLE
    measurements := List.replicate 15 0
    sampleCount := 0
    lastMeasureTime := 0
    lastDisplayTime := 0
    lastValidAvg := fl32 96
    measurementErrors := 0
    serial := [] }

/-- A counted loop `for (int i = 0; i < n; i++) body`. -/
def forLoop {σ : Type} (n : ℕ) (body : ℕ → σ → σ) (s : σ) : σ :=
  (List.range n).foldl (fun acc i => body i acc) s

/-- Difference `a - b` of two `unsigned long` values: it wraps modulo `2 ^ 32`. -/
def subU32 (a b : ℕ) : ℤ := ((a : ℤ) - (b : ℤ)) % 4294967296

/-! ## `measureDistance` (lines 29-48) -/

/-- The expression `(duration / 2.0) * sound_speed` of line 42, evaluated in `double`
and stored in the `float` `distance_mm`. -/
def distance_mm (duration : ℤ) : ℚ :=
  fl32 (fl64 (fl64 ((duration : ℚ) / 2) * sound_speed))

/-- Function `measureDistance`, with the echo time returned by `pulseIn` as argument. -/
def measureDistance (duration : ℤ) : ℚ :=
  if duration = 0 then -1
  else if distance_mm duration > 300 ∨ distance_mm duration < 50 then -1
  else distance_mm duration

/-! ## `startMeasurement` (lines 50-59) -/

/-- Function `startMeasurement`, with the value of `millis()` as argument. -/
def startMeasurement (now : ℕ) (ctx : Ctx) : Ctx :=
  { ctx with
    state := MeasurementState.MEASURING
    sampleCount := 0
    lastMeasureTime := now
    measurementErrors := 0
    measurements := forLoop NUM_SAMPLES.toNat (fun i m => m.set i (-1)) ctx.measurements }

/-! ## `processMeasurement` (lines 61-130) -/

/-- The accumulators of the evaluation loop: `total`, `validCount`, `minVal`, `maxVal`. -/
structure Stats where
  total : ℚ
  validCount : ℤ
  minVal : ℚ
  maxVal : ℚ
  deriving DecidableEq, Repr

/-- Body of the loop of lines 91-100 for the buffer entry `x`. -/
def scanStep (x : ℚ) (s : Stats) : Stats :=
  if x > 0 then
    { total := fl32 (s.total + x)
      validCount := s.validCount + 1
      minVal := if x < s.minVal then x else s.minVal
      maxVal := if x > s.maxVal then x else s.maxVal }
  else s

/-- The loop of lines 86-100 over the buffer slots. -/
def scanBatch (m : List ℚ) : Stats :=
  forLoop NUM_SAMPLES.toNat (fun i s => scanStep (m.getD i 0) s)
    { total := 0, validCount := 0, minVal := 999, maxVal := 0 }

/-- The threshold `NUM_SAMPLES * 0.8` of line 104, a `double`. -/
def threshold : ℚ := fl64 ((NUM_SAMPLES : ℚ) * fl64 (8 / 10))

/-- The evaluation of a full batch, lines 86-127. -/
def evaluate (ctx : Ctx) : Ctx :=
  let s := scanBatch ctx.measurements
  if (s.validCount : ℚ) ≥ threshold then
    let avg := fl32 (s.total / (s.validCount : ℚ))
    { ctx with
      lastValidAvg := avg
      serial := ctx.serial ++ [SerialEvent.ok s.validCount s.minVal s.maxVal avg]
      state := MeasurementState.READY }
  else
    { ctx with
      serial := ctx.serial ++ [SerialEvent.fail s.validCount]
      state := MeasurementState.READY }

/-- The body of the `if` of line 65 (lines 67-128) once the probe has returned `d`. -/
def takeSample (currentTime : ℕ) (d : ℚ) (ctx : Ctx) : Option Ctx :=
  if 0 ≤ ctx.sampleCount ∧ ctx.sampleCount < NUM_SAMPLES then
    let i := ctx.sampleCount.toNat
    let ctx1 : Ctx :=
      if d > 0 then
        { ctx with
          lastMeasureTime := currentTime
          measurements := ctx.measurements.set i d
          serial := ctx.serial ++ [SerialEvent.dot] }
      else
        { ctx with
          lastMeasureTime := currentTime
          measurements := ctx.measurements.set i (-1)
          measurementErrors := ctx.measurementErrors + 1
          serial := ctx.serial ++ [SerialEvent.cross] }
    let ctx2 : Ctx := { ctx1 with sampleCount := ctx1.sampleCount + 1 }
    if ctx2.sampleCount ≥ NUM_SAMPLES then some (evaluate ctx2) else some ctx2
  else none

/-- Function `processMeasurement` with the value of `millis()` and the result `d` of the
probe `measureDistance()` as arguments; the probe is used only on a due tick. -/
def processMeasurementWith (currentTime : ℕ) (d : ℚ) (ctx : Ctx) : Option Ctx :=
  if subU32 currentTime ctx.lastMeasureTime ≥ MEASUREMENT_INTERVAL_MS then
    takeSample currentTime d ctx
  else some ctx

/-- Function `processMeasurement` with the value of `millis()` and the echo time
returned by `pulseIn` as arguments. -/
def processMeasurement (currentTime : ℕ) (duration : ℤ) (ctx : Ctx) : Option Ctx :=
  processMeasurementWith currentTime (measureDistance duration) ctx

/-! ## `getWaterLevel` (lines 132-144) -/

/-- Function `getWaterLevel`. -/
def getWaterLevel (ctx : Ctx) : ℤ :=
  if ctx.lastValidAvg < 0 then -1
  else
    let water_level := fl32 (fl32 (sensor_height - ctx.lastValidAvg) / glass_height)
    let percent := toInt (fl32 (water_level * 100))
    let percent := if percent < 0 then 0 else percent
    let percent := if percent > 100 then 100 else percent
    percent

/-! ## `setup` and `loop` (lines 146-185) -/

/-- Function `setup`, with the value of `millis()` read by `startMeasurement`. -/
def setup (now : ℕ) (ctx : Ctx) : Ctx :=
  startMeasurement now { ctx with serial := ctx.serial ++ [SerialEvent.banner] }

/-- The guarded call of lines 168-171: `loop` runs `processMeasurement` only while the
state is `MEASURING`.  The probe result `d` is an argument. -/
def guardedTick (t1 : ℕ) (d : ℚ) (ctx : Ctx) : Option Ctx :=
  if ctx.state = MeasurementState.MEASURING then processMeasurementWith t1 d ctx
  else some ctx

/-- The report of lines 173-183, `t0` being the clock value read at the top of `loop` and
`t2` the one read by `startMeasurement`. -/
def report (t0 t2 : ℕ) (ctx : Ctx) : Ctx :=
  if subU32 t0 ctx.lastDisplayTime ≥ 5000 then
    let ctx1 : Ctx := { ctx with lastDisplayTime := t0 }
    let waterLevel := getWaterLevel ctx1
    startMeasurement t2 { ctx1 with serial := ctx1.serial ++ [SerialEvent.level waterLevel] }
  else ctx

/-- Function `loop` with the probe result `d` as argument.  The clock is read three times:
by `loop` itself (`t0`), by `processMeasurement` (`t1`) and by `startMeasurement` (`t2`). -/
def loopWith (t0 t1 t2 : ℕ) (d : ℚ) (ctx : Ctx) : Option Ctx :=
  (guardedTick t1 d ctx).map (report t0 t2)

/-- Function `loop`, `duration` being the echo time the probe reads if it is taken. -/
def loop (t0 t1 t2 : ℕ) (duration : ℤ) (ctx : Ctx) : Option Ctx :=
  loopWith t0 t1 t2 (measureDistance duration) ctx

/-! ## Runs of the program and vocabulary of the specification -/

/-- The states the firmware reaches: `setup` at power-up, then any number of `loop`
iterations with arbitrary clock values and echo durations. -/
inductive Reachable : Ctx → Prop where
  | setup (now : ℕ) : Reachable (setup now initCtx)
  | loop {s s' : Ctx} (t0 t1 t2 : ℕ) (duration : ℤ) :
      Reachable s → loop t0 t1 t2 duration s = some s' → Reachable s'

/-- A sequence of calls of `processMeasurement`, each with its clock value and probe result. -/
def runTicks : List (ℕ × ℚ) → Ctx → Option Ctx
  | [], ctx => some ctx
  | (t, d) :: rest, ctx => (processMeasurementWith t d ctx).bind (runTicks rest)

/-- Every call of the sequence is due: at least 200 ms after the previous sample, the
first one after the time `last`. -/
def AllDue : List (ℕ × ℚ) → ℕ → Prop
  | [], _ => True
  | (t, _) :: rest, last => subU32 t last ≥ MEASUREMENT_INTERVAL_MS ∧ AllDue rest t

/-- Number of batch evaluations recorded in the output: the "OK" and "FAIL" lines. -/
def evalCount : List SerialEvent → ℕ
  | [] => 0
  | SerialEvent.ok _ _ _ _ :: rest => evalCount rest + 1
  | SerialEvent.fail _ :: rest => evalCount rest + 1
  | _ :: rest => evalCount rest

/-- The valid samples of a buffer, in buffer order: the entries the evaluation loop
accepts (`measurements[i] > 0`). -/
def validSamples (m : List ℚ) : List ℚ := m.filter fun x => 0 < x

/-- What a probe result leaves in the buffer: itself when valid, the sentinel otherwise. -/
def stored (d : ℚ) : ℚ := if d > 0 then d else -1

/-- The `float` running sum of a list: one rounding after every addition. -/
def floatSum (l : List ℚ) : ℚ := l.foldl (fun acc x => fl32 (acc + x)) 0

/-- The state after lines 67-82 of a due tick with probe result `d`, the write index
being inside the buffer: the sample is stored, counted, and marked on the output. -/
def store (currentTime : ℕ) (d : ℚ) (ctx : Ctx) : Ctx :=
  { ctx with
    lastMeasureTime := currentTime
    measurements := ctx.measurements.set ctx.sampleCount.toNat (stored d)
    measurementErrors := ctx.measurementErrors + (if d > 0 then 0 else 1)
    serial := ctx.serial ++ [if d > 0 then SerialEvent.dot else SerialEvent.cross]
    sampleCount := ctx.sampleCount + 1 }

/-- The batch the sealing tick evaluates: the buffer with the fifteenth sample in its slot. -/
def sealedBatch (d : ℚ) (ctx : Ctx) : List ℚ := ctx.measurements.set 14 (stored d)

/-- A context in the middle of operation: 14 samples of the current batch taken, the buffer
`m`, the error counter `errors` and the published reading `avg` as given. -/
def collecting (m : List ℚ) (errors : ℤ) (avg : ℚ) : Ctx :=
  { state := MeasurementState.MEASURING
    measurements := m
    sampleCount := 14
    lastMeasureTime := 2800
    lastDisplayTime := 0
    lastValidAvg := avg
    measurementErrors := errors
    serial := [] }

/-- A context whose published reading is `avg`, all else as at power-up. -/
def withReading (avg : ℚ) : Ctx := { initCtx with lastValidAvg := avg }

/-- The state after a sequence of due ticks none of which fills the buffer: every sample is
stored in turn. -/
def collect : List (ℕ × ℚ) → Ctx → Ctx
  | [], ctx => ctx
  | (t, d) :: rest, ctx => collect rest (store t d ctx)

/-- Due ticks 200 ms apart, one for each probe result of `ds`, the first at time 200. -/
def ticksOf (ds : List ℚ) : List (ℕ × ℚ) :=
  (List.range ds.length).zipWith (fun i d => (200 * (i + 1), d)) ds

instance decAllDue : ∀ (ticks : List (ℕ × ℚ)) (last : ℕ), Decidable (AllDue ticks last)
  | [], _ => isTrue trivial
  | (t, _) :: rest, _ => @instDecidableAnd _ _ inferInstance (decAllDue rest t)

/-- The invariant of the sampling state machine: the buffer has its 15 slots, the sample
count is between 0 and 15, and it is below 15 while the state is `MEASURING`. -/
def Inv (c : Ctx) : Prop :=
  c.measurements.length = 15 ∧ 0 ≤ c.sampleCount ∧ c.sampleCount ≤ NUM_SAMPLES ∧
    (c.state = MeasurementState.MEASURING → c.sampleCount < NUM_SAMPLES)

/-- Number of probes recorded in the output: every probe of `processMeasurement` prints one
mark, "." or "x". -/
def probeCount : List SerialEvent → ℕ
  | [] => 0
  | SerialEvent.dot :: rest => probeCount rest + 1
  | SerialEvent.cross :: rest => probeCount rest + 1
  | _ :: rest => probeCount rest

/-- The published reading and every valid buffer entry lie in the plausibility window
`[50, 300]`. -/
def InRange (c : Ctx) : Prop :=
  (∀ x ∈ c.measurements, 0 < x → 50 ≤ x ∧ x ≤ 300) ∧
    50 ≤ c.lastValidAvg ∧ c.lastValidAvg ≤ 300

/-- The level the specification states: `clamp(round(w), 0, 100)` for integer rounding
`round`. -/
def clampLevel (round : ℚ → ℤ) (w : ℚ) : ℤ := max 0 (min 100 (round w))

/-! ## Theorems -/

/-! ### Loops over the buffer -/

theorem foldl_range_getD {α σ : Type} (f : α → σ → σ) (dflt : α) :
    ∀ (rest pre : List α) (s : σ),
      (List.range' pre.length rest.length).foldl
          (fun acc i => f ((pre ++ rest).getD i dflt) acc) s
        = rest.foldl (fun acc x => f x acc) s := by
  intro rest
  induction rest with
  | nil => intro pre s; simp
  | cons a rest ih =>
    intro pre s
    have h := ih (pre ++ [a]) (f a s)
    simp only [List.length_append, List.length_singleton, List.append_assoc,
      List.singleton_append] at h
    have hx : (pre ++ a :: rest).getD pre.length dflt = a := by
      rw [List.getD_eq_getElem?_getD, List.getElem?_append_right (le_refl _)]
      simp
    simp only [List.length_cons, List.range'_succ, List.foldl_cons, hx]
    exact h

theorem forLoop_getD {α σ : Type} (f : α → σ → σ) (dflt : α) (m : List α) (s : σ) :
    forLoop m.length (fun i acc => f (m.getD i dflt) acc) s
      = m.foldl (fun acc x => f x acc) s := by
  have h := foldl_range_getD f dflt m [] s
  simpa [forLoop, List.range_eq_range'] using h

theorem scanBatch_eq_foldl (m : List ℚ) (h : m.length = 15) :
    scanBatch m = m.foldl (fun acc x => scanStep x acc)
      { total := 0, validCount := 0, minVal := 999, maxVal := 0 } := by
  have h15 : NUM_SAMPLES.toNat = 15 := rfl
  unfold scanBatch
  rw [h15, ← h]
  exact forLoop_getD scanStep 0 m _

theorem foldl_set_fill (v : ℚ) :
    ∀ (rest pre : List ℚ),
      (List.range' pre.length rest.length).foldl (fun acc i => acc.set i v) (pre ++ rest)
        = pre ++ List.replicate rest.length v := by
  intro rest
  induction rest with
  | nil => intro pre; simp
  | cons a rest ih =>
    intro pre
    have h := ih (pre ++ [v])
    simp only [List.length_append, List.length_singleton, List.append_assoc,
      List.singleton_append] at h
    simp only [List.length_cons, List.range'_succ, List.foldl_cons, List.replicate_succ]
    rw [← h]
    simp

theorem clearBuffer_eq (m : List ℚ) (h : m.length = 15) :
    forLoop 15 (fun i acc => acc.set i (-1)) m = List.replicate 15 (-1) := by
  have h1 := foldl_set_fill (-1) m []
  rw [h] at h1
  simpa [forLoop, List.range_eq_range'] using h1

/-! ### Rounding -/

theorem roundHalfEven_err (q : ℚ) : |((roundHalfEven q : ℤ) : ℚ) - q| ≤ 1 / 2 := by
  have h1 : ((⌊q⌋ : ℤ) : ℚ) ≤ q := Int.floor_le q
  have h2 : q < ((⌊q⌋ : ℤ) : ℚ) + 1 := Int.lt_floor_add_one q
  unfold roundHalfEven
  simp only
  split_ifs <;> rw [abs_le] <;> push_cast <;> constructor <;> linarith

theorem ilog2_spec : ∀ (fuel n : ℕ), 0 < n → n ≤ fuel →
    2 ^ ilog2 fuel n ≤ n ∧ n < 2 ^ (ilog2 fuel n + 1) := by
  intro fuel
  induction fuel with
  | zero => intro n h0 h1; omega
  | succ f ih =>
    intro n h0 h1
    unfold ilog2
    by_cases h2 : n < 2
    · rw [if_pos h2]
      simp only [pow_zero, zero_add, pow_one]
      omega
    · rw [if_neg h2]
      obtain ⟨i1, i2⟩ := ih (n / 2) (by omega) (by omega)
      rw [pow_succ, pow_succ]
      rw [pow_succ] at i2
      constructor <;> omega

theorem binade_spec (q : ℚ) (hq : q ≠ 0) :
    (2 : ℚ) ^ binade q ≤ |q| ∧ |q| < (2 : ℚ) ^ (binade q + 1) := by
  have hn0 : 0 < q.num.natAbs := Int.natAbs_pos.mpr (Rat.num_ne_zero.mpr hq)
  have hd0 : 0 < q.den := q.den_pos
  obtain ⟨a1, a2⟩ := ilog2_spec q.num.natAbs q.num.natAbs hn0 le_rfl
  obtain ⟨b1, b2⟩ := ilog2_spec q.den q.den hd0 le_rfl
  set a := ilog2 q.num.natAbs q.num.natAbs with ha
  set b := ilog2 q.den q.den with hb
  have habs : |q| = (q.num.natAbs : ℚ) / (q.den : ℚ) := by
    conv_lhs => rw [← Rat.num_div_den q]
    rw [abs_div, Nat.cast_natAbs, Int.cast_abs]
    simp
  have a1q : (2 : ℚ) ^ a ≤ (q.num.natAbs : ℚ) := by exact_mod_cast a1
  have a2q : (q.num.natAbs : ℚ) < (2 : ℚ) ^ (a + 1) := by exact_mod_cast a2
  have b1q : (2 : ℚ) ^ b ≤ (q.den : ℚ) := by exact_mod_cast b1
  have b2q : (q.den : ℚ) < (2 : ℚ) ^ (b + 1) := by exact_mod_cast b2
  have hdq : (0 : ℚ) < (q.den : ℚ) := by exact_mod_cast hd0
  have hpb : (0 : ℚ) < (2 : ℚ) ^ b := by positivity
  have hpa : (0 : ℚ) < (2 : ℚ) ^ a := by positivity
  have two : (2 : ℚ) ≠ 0 := by norm_num
  have he : (2 : ℚ) ^ ((a : ℤ) - (b : ℤ)) = (2 : ℚ) ^ a / (2 : ℚ) ^ b := by
    rw [zpow_sub₀ two, zpow_natCast, zpow_natCast]
  have hup : |q| < (2 : ℚ) ^ ((a : ℤ) - (b : ℤ) + 1) := by
    rw [zpow_add_one₀ two, he, habs, div_lt_iff₀ hdq]
    have : (2 : ℚ) ^ a / (2 : ℚ) ^ b * 2 * (q.den : ℚ)
        = (2 : ℚ) ^ (a + 1) * ((q.den : ℚ) / (2 : ℚ) ^ b) := by
      rw [pow_succ]; field_simp
    rw [this]
    have h1 : (1 : ℚ) ≤ (q.den : ℚ) / (2 : ℚ) ^ b := by
      rw [le_div_iff₀ hpb]; linarith
    nlinarith [pow_pos (by norm_num : (0 : ℚ) < 2) (a + 1)]
  have hlow : (2 : ℚ) ^ ((a : ℤ) - (b : ℤ) - 1) ≤ |q| := by
    rw [zpow_sub_one₀ two, he, habs, le_div_iff₀ hdq]
    have : (2 : ℚ) ^ a / (2 : ℚ) ^ b * 2⁻¹ * (q.den : ℚ)
        = (2 : ℚ) ^ a * ((q.den : ℚ) / (2 : ℚ) ^ (b + 1)) := by
      rw [pow_succ]; field_simp
    rw [this]
    have h1 : (q.den : ℚ) / (2 : ℚ) ^ (b + 1) ≤ 1 := by
      rw [div_le_iff₀ (by positivity)]; linarith
    nlinarith
  unfold binade
  simp only [← ha, ← hb]
  by_cases hc : |q| < (2 : ℚ) ^ ((a : ℤ) - (b : ℤ))
  · rw [if_pos hc]
    refine ⟨hlow, ?_⟩
    have : (a : ℤ) - (b : ℤ) - 1 + 1 = (a : ℤ) - (b : ℤ) := by ring
    rw [this]
    exact hc
  · rw [if_neg hc]
    exact ⟨not_lt.mp hc, hup⟩

theorem roundBin_err (p : ℕ) (emin : ℤ) (q : ℚ) (h : (2 : ℚ) ^ emin ≤ |q|) :
    |roundBin p emin q - q| ≤ (2 : ℚ) ^ (-(p : ℤ)) * |q| := by
  have hpos : (0 : ℚ) < |q| := lt_of_lt_of_le (by positivity) h
  have hq : q ≠ 0 := abs_pos.mp hpos
  obtain ⟨hle, hlt⟩ := binade_spec q hq
  have hlog : emin ≤ binade q := by
    have h1 : (2 : ℚ) ^ emin < (2 : ℚ) ^ (binade q + 1) := lt_of_le_of_lt h hlt
    have h2 := (zpow_lt_zpow_iff_right₀ (by norm_num : (1 : ℚ) < 2)).mp h1
    omega
  unfold roundBin
  simp only [max_eq_left hlog]
  set e := binade q with he
  set ulp : ℚ := (2 : ℚ) ^ (e - ((p : ℤ) - 1)) with hulp
  have hulp_pos : 0 < ulp := by positivity
  have hkey : ((roundHalfEven (q / ulp) : ℤ) : ℚ) * ulp - q
      = (((roundHalfEven (q / ulp) : ℤ) : ℚ) - q / ulp) * ulp := by
    field_simp
  rw [hkey, abs_mul, abs_of_pos hulp_pos]
  have herr := roundHalfEven_err (q / ulp)
  have hhalf : 1 / 2 * ulp = (2 : ℚ) ^ (-(p : ℤ)) * (2 : ℚ) ^ e := by
    rw [hulp, ← zpow_add₀ (by norm_num : (2 : ℚ) ≠ 0)]
    have : e - ((p : ℤ) - 1) = (-(p : ℤ) + e) + 1 := by ring
    rw [this, zpow_add_one₀ (by norm_num : (2 : ℚ) ≠ 0)]
    ring
  calc |((roundHalfEven (q / ulp) : ℤ) : ℚ) - q / ulp| * ulp
      ≤ 1 / 2 * ulp := by
        exact mul_le_mul_of_nonneg_right herr hulp_pos.le
    _ = (2 : ℚ) ^ (-(p : ℤ)) * (2 : ℚ) ^ e := hhalf
    _ ≤ (2 : ℚ) ^ (-(p : ℤ)) * |q| := by
        exact mul_le_mul_of_nonneg_left hle (by positivity)

theorem roundHalfEven_floor_le (a : ℚ) : ⌊a⌋ ≤ roundHalfEven a ∧ roundHalfEven a ≤ ⌊a⌋ + 1 := by
  unfold roundHalfEven
  simp only
  split_ifs <;> constructor <;> omega

theorem roundHalfEven_intCast (n : ℤ) : roundHalfEven (n : ℚ) = n := by
  unfold roundHalfEven
  simp

theorem roundHalfEven_mono (a b : ℚ) (h : a ≤ b) : roundHalfEven a ≤ roundHalfEven b := by
  have hfl : ⌊a⌋ ≤ ⌊b⌋ := Int.floor_le_floor h
  rcases lt_or_eq_of_le hfl with hlt | heq
  · have h1 := (roundHalfEven_floor_le a).2
    have h2 := (roundHalfEven_floor_le b).1
    omega
  · unfold roundHalfEven
    simp only
    rw [← heq]
    have hab : a - (⌊a⌋ : ℚ) ≤ b - (⌊a⌋ : ℚ) := by linarith
    split_ifs <;> first | omega | (exfalso; linarith)

theorem roundHalfEven_neg (a : ℚ) : roundHalfEven (-a) = -roundHalfEven a := by
  by_cases hint : (⌊a⌋ : ℚ) = a
  · rw [← hint, ← Int.cast_neg, roundHalfEven_intCast, roundHalfEven_intCast]
  · have h1 : ((⌊a⌋ : ℤ) : ℚ) ≤ a := Int.floor_le a
    have h2 : a < ((⌊a⌋ : ℤ) : ℚ) + 1 := Int.lt_floor_add_one a
    have h1' : ((⌊a⌋ : ℤ) : ℚ) < a := lt_of_le_of_ne h1 hint
    have hfl : ⌊-a⌋ = -⌊a⌋ - 1 := by
      rw [Int.floor_eq_iff]
      push_cast
      constructor <;> linarith
    unfold roundHalfEven
    simp only
    rw [hfl]
    push_cast
    split_ifs <;> first | omega | (exfalso; linarith)

theorem binade_neg (q : ℚ) : binade (-q) = binade q := by
  unfold binade
  simp

theorem roundBin_neg (p : ℕ) (emin : ℤ) (q : ℚ) : roundBin p emin (-q) = -roundBin p emin q := by
  unfold roundBin
  simp only [binade_neg, neg_div, roundHalfEven_neg]
  push_cast
  ring

theorem roundBin_nonneg (p : ℕ) (emin : ℤ) (q : ℚ) (h : 0 ≤ q) : 0 ≤ roundBin p emin q := by
  unfold roundBin
  simp only
  have hu : (0 : ℚ) < (2 : ℚ) ^ (max (binade q) emin - ((p : ℤ) - 1)) := by positivity
  have h1 : (0 : ℤ) ≤ roundHalfEven (q / (2 : ℚ) ^ (max (binade q) emin - ((p : ℤ) - 1))) := by
    have := roundHalfEven_mono 0 _ (div_nonneg h hu.le)
    have h0 : roundHalfEven 0 = 0 := by
      have := roundHalfEven_intCast 0
      simpa using this
    omega
  have h2 : (0 : ℚ) ≤ ((roundHalfEven (q / (2 : ℚ) ^ (max (binade q) emin - ((p : ℤ) - 1))) : ℤ) : ℚ) := by
    exact_mod_cast h1
  exact mul_nonneg h2 hu.le

theorem binade_mono (x y : ℚ) (hx : 0 < x) (hxy : x ≤ y) : binade x ≤ binade y := by
  have hy : 0 < y := lt_of_lt_of_le hx hxy
  obtain ⟨a1, _⟩ := binade_spec x hx.ne'
  obtain ⟨_, b2⟩ := binade_spec y hy.ne'
  rw [abs_of_pos hx] at a1
  rw [abs_of_pos hy] at b2
  have h1 : (2 : ℚ) ^ binade x < (2 : ℚ) ^ (binade y + 1) :=
    lt_of_le_of_lt (le_trans a1 hxy) b2
  have h2 := (zpow_lt_zpow_iff_right₀ (by norm_num : (1 : ℚ) < 2)).mp h1
  omega

theorem roundBin_mono_pos (p : ℕ) (emin : ℤ) (x y : ℚ) (hp1 : 1 ≤ p) (hx : 0 < x)
    (hxy : x ≤ y) :
    roundBin p emin x ≤ roundBin p emin y := by
  have hy : 0 < y := lt_of_lt_of_le hx hxy
  have hb := binade_mono x y hx hxy
  have two : (2 : ℚ) ≠ 0 := by norm_num
  rcases lt_or_eq_of_le (max_le_max hb (le_refl emin)) with hlt | heq
  · -- the exponents differ: a power of two separates the two results
    have hey : max (binade y) emin = binade y := by
      rcases le_total (binade y) emin with h | h
      · exfalso
        rw [max_eq_right h, max_eq_right (le_trans hb h)] at hlt
        exact lt_irrefl _ hlt
      · exact max_eq_left h
    rw [hey] at hlt
    obtain ⟨_, a2⟩ := binade_spec x hx.ne'
    obtain ⟨b1, _⟩ := binade_spec y hy.ne'
    rw [abs_of_pos hx] at a2
    rw [abs_of_pos hy] at b1
    set ex := max (binade x) emin with hex
    set ey := binade y with hey'
    have hxlt : x < (2 : ℚ) ^ (ex + 1) := by
      refine lt_of_lt_of_le a2 ?_
      exact zpow_le_zpow_right₀ (by norm_num) (by have := le_max_left (binade x) emin; omega)
    have hlow : roundBin p emin x ≤ (2 : ℚ) ^ (ex + 1) := by
      unfold roundBin
      simp only [← hex]
      set ulp : ℚ := (2 : ℚ) ^ (ex - ((p : ℤ) - 1)) with hulp
      have hup : 0 < ulp := by positivity
      have hq : x / ulp ≤ (((2 : ℤ) ^ p : ℤ) : ℚ) := by
        rw [div_le_iff₀ hup, hulp]
        push_cast
        rw [← zpow_natCast, ← zpow_add₀ two]
        have : (p : ℤ) + (ex - ((p : ℤ) - 1)) = ex + 1 := by ring
        rw [this]
        exact hxlt.le
      have hr := roundHalfEven_mono _ _ hq
      rw [roundHalfEven_intCast] at hr
      have hr' : ((roundHalfEven (x / ulp) : ℤ) : ℚ) ≤ (((2 : ℤ) ^ p : ℤ) : ℚ) := by
        exact_mod_cast hr
      calc ((roundHalfEven (x / ulp) : ℤ) : ℚ) * ulp
          ≤ (((2 : ℤ) ^ p : ℤ) : ℚ) * ulp := mul_le_mul_of_nonneg_right hr' hup.le
        _ = (2 : ℚ) ^ (ex + 1) := by
          rw [hulp]
          push_cast
          rw [← zpow_natCast, ← zpow_add₀ two]
          congr 1
          ring
    have hhigh : (2 : ℚ) ^ ey ≤ roundBin p emin y := by
      unfold roundBin
      simp only [hey]
      set ulp : ℚ := (2 : ℚ) ^ (ey - ((p : ℤ) - 1)) with hulp
      have hup : 0 < ulp := by positivity
      have hq : ((((2 : ℤ) ^ (p - 1) : ℤ)) : ℚ) ≤ y / ulp := by
        rw [le_div_iff₀ hup, hulp]
        push_cast
        rw [← zpow_natCast, ← zpow_add₀ two]
        have : ((p - 1 : ℕ) : ℤ) + (ey - ((p : ℤ) - 1)) = ey := by
          rw [Nat.cast_sub hp1]; push_cast; ring
        rw [this]
        exact b1
      have hr := roundHalfEven_mono _ _ hq
      rw [roundHalfEven_intCast] at hr
      have hr' : ((((2 : ℤ) ^ (p - 1) : ℤ)) : ℚ) ≤ ((roundHalfEven (y / ulp) : ℤ) : ℚ) := by
        exact_mod_cast hr
      calc (2 : ℚ) ^ ey = ((((2 : ℤ) ^ (p - 1) : ℤ)) : ℚ) * ulp := by
            rw [hulp]
            push_cast
            rw [← zpow_natCast, ← zpow_add₀ two]
            congr 1
            rw [Nat.cast_sub hp1]; push_cast; ring
        _ ≤ ((roundHalfEven (y / ulp) : ℤ) : ℚ) * ulp :=
            mul_le_mul_of_nonneg_right hr' hup.le
    have hmid : (2 : ℚ) ^ (ex + 1) ≤ (2 : ℚ) ^ ey :=
      zpow_le_zpow_right₀ (by norm_num) (by omega)
    exact le_trans hlow (le_trans hmid hhigh)
  · -- same exponent, same spacing
    unfold roundBin
    simp only [← heq]
    set ulp : ℚ := (2 : ℚ) ^ (max (binade x) emin - ((p : ℤ) - 1)) with hulp
    have hup : 0 < ulp := by positivity
    have hq : x / ulp ≤ y / ulp := div_le_div_of_nonneg_right hxy hup.le
    have hr := roundHalfEven_mono _ _ hq
    have hr' : ((roundHalfEven (x / ulp) : ℤ) : ℚ) ≤ ((roundHalfEven (y / ulp) : ℤ) : ℚ) := by
      exact_mod_cast hr
    exact mul_le_mul_of_nonneg_right hr' hup.le

theorem roundBin_mono (p : ℕ) (emin : ℤ) (x y : ℚ) (hp1 : 1 ≤ p) (hxy : x ≤ y) :
    roundBin p emin x ≤ roundBin p emin y := by
  rcases lt_or_le 0 x with hx | hx
  · exact roundBin_mono_pos p emin x y hp1 hx hxy
  · have hx' : roundBin p emin x ≤ 0 := by
      have h := roundBin_nonneg p emin (-x) (by linarith)
      rw [roundBin_neg] at h
      linarith
    rcases le_or_lt 0 y with hy | hy
    · exact le_trans hx' (roundBin_nonneg p emin y hy)
    · have h := roundBin_mono_pos p emin (-y) (-x) hp1 (by linarith) (by linarith)
      rw [roundBin_neg, roundBin_neg] at h
      linarith

theorem fl32_mono (x y : ℚ) (h : x ≤ y) : fl32 x ≤ fl32 y :=
  roundBin_mono 24 (-126) x y (by norm_num) h

theorem fl64_mono (x y : ℚ) (h : x ≤ y) : fl64 x ≤ fl64 y :=
  roundBin_mono 53 (-1022) x y (by norm_num) h

theorem fl32_bounds (x : ℚ) (hx : 1 ≤ x) :
    (1 - 1 / 16777216) * x ≤ fl32 x ∧ fl32 x ≤ (1 + 1 / 16777216) * x := by
  have hx0 : 0 < x := lt_of_lt_of_le one_pos hx
  have h1 : (2 : ℚ) ^ (-126 : ℤ) ≤ |x| := by
    rw [abs_of_pos hx0]
    refine le_trans ?_ hx
    exact zpow_le_one_of_nonpos₀ (by norm_num) (by norm_num)
  have h := roundBin_err 24 (-126) x h1
  rw [abs_of_pos hx0, abs_le] at h
  have he : (2 : ℚ) ^ (-((24 : ℕ) : ℤ)) = 1 / 16777216 := by norm_num [zpow_neg]
  rw [he] at h
  unfold fl32
  constructor <;> linarith [h.1, h.2]

/-! ### The evaluation loop -/

theorem foldl_scanStep (m : List ℚ) : ∀ s : Stats,
    m.foldl (fun acc x => scanStep x acc) s =
      { total := (validSamples m).foldl (fun acc x => fl32 (acc + x)) s.total
        validCount := s.validCount + ((validSamples m).length : ℤ)
        minVal := (validSamples m).foldl (fun acc x => if x < acc then x else acc) s.minVal
        maxVal := (validSamples m).foldl (fun acc x => if x > acc then x else acc) s.maxVal } := by
  induction m with
  | nil => intro s; simp [validSamples]
  | cons a m ih =>
    intro s
    rw [List.foldl_cons, ih]
    by_cases ha : 0 < a
    · have hv : validSamples (a :: m) = a :: validSamples m := by
        simp [validSamples, ha]
      rw [hv]
      simp only [scanStep, gt_iff_lt, ha, if_true, List.foldl_cons, List.length_cons]
      congr 1
      push_cast
      ring
    · have hv : validSamples (a :: m) = validSamples m := by
        simp [validSamples, ha]
      rw [hv]
      simp [scanStep, ha]

theorem scanBatch_eq (m : List ℚ) (h : m.length = 15) :
    scanBatch m =
      { total := floatSum (validSamples m)
        validCount := ((validSamples m).length : ℤ)
        minVal := (validSamples m).foldl (fun acc x => if x < acc then x else acc) 999
        maxVal := (validSamples m).foldl (fun acc x => if x > acc then x else acc) 0 } := by
  rw [scanBatch_eq_foldl m h, foldl_scanStep]
  simp [floatSum]

theorem foldl_min_spec (l : List ℚ) : ∀ a : ℚ,
    l.foldl (fun acc x => if x < acc then x else acc) a ≤ a ∧
      (∀ x ∈ l, l.foldl (fun acc x => if x < acc then x else acc) a ≤ x) ∧
      (l.foldl (fun acc x => if x < acc then x else acc) a = a ∨
        l.foldl (fun acc x => if x < acc then x else acc) a ∈ l) := by
  induction l with
  | nil => intro a; simp
  | cons b l ih =>
    intro a
    rw [List.foldl_cons]
    obtain ⟨h1, h2, h3⟩ := ih (if b < a then b else a)
    have hle : (if b < a then b else a) ≤ a := by split_ifs with h <;> linarith
    have hleb : (if b < a then b else a) ≤ b := by split_ifs with h <;> linarith
    refine ⟨le_trans h1 hle, ?_, ?_⟩
    · intro x hx
      rcases List.mem_cons.mp hx with rfl | hx
      · exact le_trans h1 hleb
      · exact h2 x hx
    · rcases h3 with h3 | h3
      · by_cases h : b < a
        · right; rw [h3, if_pos h]; exact List.mem_cons_self _ _
        · left; rw [h3, if_neg h]
      · right; exact List.mem_cons_of_mem _ h3

theorem foldl_max_spec (l : List ℚ) : ∀ a : ℚ,
    a ≤ l.foldl (fun acc x => if x > acc then x else acc) a ∧
      (∀ x ∈ l, x ≤ l.foldl (fun acc x => if x > acc then x else acc) a) ∧
      (l.foldl (fun acc x => if x > acc then x else acc) a = a ∨
        l.foldl (fun acc x => if x > acc then x else acc) a ∈ l) := by
  induction l with
  | nil => intro a; simp
  | cons b l ih =>
    intro a
    rw [List.foldl_cons]
    obtain ⟨h1, h2, h3⟩ := ih (if b > a then b else a)
    have hle : a ≤ (if b > a then b else a) := by split_ifs with h <;> linarith
    have hleb : b ≤ (if b > a then b else a) := by split_ifs with h <;> linarith
    refine ⟨le_trans hle h1, ?_, ?_⟩
    · intro x hx
      rcases List.mem_cons.mp hx with rfl | hx
      · exact le_trans hleb h1
      · exact h2 x hx
    · rcases h3 with h3 | h3
      · by_cases h : b > a
        · right; rw [h3, if_pos h]; exact List.mem_cons_self _ _
        · left; rw [h3, if_neg h]
      · right; exact List.mem_cons_of_mem _ h3

theorem floatSum_bounds (a b : ℚ) (ha : 1 ≤ a) :
    ∀ (l : List ℚ), (∀ x ∈ l, a ≤ x ∧ x ≤ b) → ∀ (k : ℕ) (s0 : ℚ),
      (1 - 1 / 16777216) ^ k * (k * a) ≤ s0 → s0 ≤ (1 + 1 / 16777216) ^ k * (k * b) →
      (1 - 1 / 16777216) ^ (k + l.length) * (((k + l.length : ℕ) : ℚ) * a)
          ≤ l.foldl (fun acc x => fl32 (acc + x)) s0 ∧
        l.foldl (fun acc x => fl32 (acc + x)) s0
          ≤ (1 + 1 / 16777216) ^ (k + l.length) * (((k + l.length : ℕ) : ℚ) * b) := by
  intro l
  induction l with
  | nil =>
    intro _ k s0 h1 h2
    simp only [List.length_nil, Nat.add_zero, List.foldl_nil]
    exact ⟨h1, h2⟩
  | cons x l ih =>
    intro hl k s0 h1 h2
    have hx := hl x (List.mem_cons_self _ _)
    have hl' : ∀ y ∈ l, a ≤ y ∧ y ≤ b := fun y hy => hl y (List.mem_cons_of_mem _ hy)
    have ha0 : (0 : ℚ) ≤ a := by linarith
    have hb0 : (0 : ℚ) ≤ b := by linarith [hx.1, hx.2]
    have hlo1 : (0 : ℚ) ≤ (1 - 1 / 16777216) ^ k := by positivity
    have hlo2 : (1 - 1 / 16777216 : ℚ) ^ k ≤ 1 := pow_le_one₀ (by norm_num) (by norm_num)
    have hhi2 : (1 : ℚ) ≤ (1 + 1 / 16777216) ^ k := one_le_pow₀ (by norm_num)
    have hs0 : 0 ≤ s0 := le_trans (by positivity) h1
    have hsum : 1 ≤ s0 + x := by linarith [hx.1]
    obtain ⟨f1, f2⟩ := fl32_bounds (s0 + x) hsum
    rw [List.foldl_cons, List.length_cons]
    have e : k + (l.length + 1) = (k + 1) + l.length := by ring
    rw [e]
    apply ih hl' (k + 1) (fl32 (s0 + x))
    · refine le_trans ?_ f1
      rw [pow_succ]
      have : (1 - 1 / 16777216 : ℚ) ^ k * (((k + 1 : ℕ) : ℚ) * a) ≤ s0 + x := by
        push_cast
        nlinarith [mul_le_mul_of_nonneg_right hlo2 ha0, hx.1]
      have h3 : (0 : ℚ) ≤ 1 - 1 / 16777216 := by norm_num
      nlinarith [mul_le_mul_of_nonneg_left this h3]
    · refine le_trans f2 ?_
      rw [pow_succ]
      have : s0 + x ≤ (1 + 1 / 16777216 : ℚ) ^ k * (((k + 1 : ℕ) : ℚ) * b) := by
        push_cast
        nlinarith [mul_le_mul_of_nonneg_right hhi2 hb0, hx.2]
      have h3 : (0 : ℚ) ≤ 1 + 1 / 16777216 := by norm_num
      nlinarith [mul_le_mul_of_nonneg_left this h3]

/-! ### One tick -/

theorem threshold_eq : threshold = 12 := by decide!

theorem takeSample_eq (t : ℕ) (d : ℚ) (ctx : Ctx) :
    takeSample t d ctx =
      if 0 ≤ ctx.sampleCount ∧ ctx.sampleCount < 15 then
        (if ctx.sampleCount + 1 ≥ 15 then some (evaluate (store t d ctx))
          else some (store t d ctx))
      else none := by
  unfold takeSample store stored NUM_SAMPLES
  by_cases hd : d > 0 <;> simp [hd]

theorem takeSample_collect (t : ℕ) (d : ℚ) (ctx : Ctx)
    (h0 : 0 ≤ ctx.sampleCount) (h1 : ctx.sampleCount < 14) :
    takeSample t d ctx = some (store t d ctx) := by
  rw [takeSample_eq]
  have h2 : 0 ≤ ctx.sampleCount ∧ ctx.sampleCount < 15 := ⟨h0, by omega⟩
  have h3 : ¬ (ctx.sampleCount + 1 ≥ 15) := by omega
  rw [if_pos h2, if_neg h3]

theorem takeSample_seal (t : ℕ) (d : ℚ) (ctx : Ctx) (h : ctx.sampleCount = 14) :
    takeSample t d ctx = some (evaluate (store t d ctx)) := by
  rw [takeSample_eq]
  have h2 : 0 ≤ ctx.sampleCount ∧ ctx.sampleCount < 15 := by omega
  have h3 : ctx.sampleCount + 1 ≥ 15 := by omega
  rw [if_pos h2, if_pos h3]

theorem evaluate_accept (ctx : Ctx) (hlen : ctx.measurements.length = 15)
    (h : 12 ≤ (validSamples ctx.measurements).length) :
    evaluate ctx =
      { ctx with
        lastValidAvg := fl32 (floatSum (validSamples ctx.measurements)
          / ((validSamples ctx.measurements).length : ℚ))
        serial := ctx.serial ++ [SerialEvent.ok ((validSamples ctx.measurements).length : ℤ)
          ((validSamples ctx.measurements).foldl (fun acc x => if x < acc then x else acc) 999)
          ((validSamples ctx.measurements).foldl (fun acc x => if x > acc then x else acc) 0)
          (fl32 (floatSum (validSamples ctx.measurements)
            / ((validSamples ctx.measurements).length : ℚ)))]
        state := MeasurementState.READY } := by
  unfold evaluate
  rw [scanBatch_eq _ hlen, threshold_eq]
  have h' : ((((validSamples ctx.measurements).length : ℤ) : ℚ)) ≥ 12 := by
    have : (12 : ℚ) ≤ ((validSamples ctx.measurements).length : ℚ) := by exact_mod_cast h
    simpa using this
  simp only [h', if_true]
  simp

theorem evaluate_reject (ctx : Ctx) (hlen : ctx.measurements.length = 15)
    (h : (validSamples ctx.measurements).length < 12) :
    evaluate ctx =
      { ctx with
        serial := ctx.serial ++ [SerialEvent.fail ((validSamples ctx.measurements).length : ℤ)]
        state := MeasurementState.READY } := by
  unfold evaluate
  rw [scanBatch_eq _ hlen, threshold_eq]
  have h' : ¬ ((((validSamples ctx.measurements).length : ℤ) : ℚ)) ≥ 12 := by
    have : ((validSamples ctx.measurements).length : ℚ) < 12 := by exact_mod_cast h
    simpa using this
  simp only [h', if_false]

/-! ### Means -/

theorem list_sum_bounds (a b : ℚ) (l : List ℚ) (hl : ∀ x ∈ l, a ≤ x ∧ x ≤ b) :
    (l.length : ℚ) * a ≤ l.sum ∧ l.sum ≤ (l.length : ℚ) * b := by
  induction l with
  | nil => simp
  | cons x l ih =>
    have hx := hl x (List.mem_cons_self _ _)
    obtain ⟨h1, h2⟩ := ih (fun y hy => hl y (List.mem_cons_of_mem _ hy))
    simp only [List.length_cons, List.sum_cons]
    push_cast
    constructor <;> linarith [hx.1, hx.2]

theorem list_mean_bounds (a b : ℚ) (l : List ℚ) (hl : ∀ x ∈ l, a ≤ x ∧ x ≤ b)
    (hn : 0 < l.length) :
    a ≤ l.sum / (l.length : ℚ) ∧ l.sum / (l.length : ℚ) ≤ b := by
  have hq : (0 : ℚ) < (l.length : ℚ) := by exact_mod_cast hn
  obtain ⟨h1, h2⟩ := list_sum_bounds a b l hl
  constructor
  · rw [le_div_iff₀ hq]; linarith
  · rw [div_le_iff₀ hq]; linarith

theorem float_mean_bounds (a b : ℚ) (ha : 50 ≤ a) (l : List ℚ)
    (hl : ∀ x ∈ l, a ≤ x ∧ x ≤ b) (hn0 : 0 < l.length) (hn : l.length ≤ 15) :
    (1 - 1 / 16777216) ^ 16 * a ≤ fl32 (floatSum l / (l.length : ℚ)) ∧
      fl32 (floatSum l / (l.length : ℚ)) ≤ (1 + 1 / 16777216) ^ 16 * b := by
  have hq : (0 : ℚ) < (l.length : ℚ) := by exact_mod_cast hn0
  obtain ⟨x, hx⟩ := List.exists_mem_of_length_pos hn0
  have hab : a ≤ b := le_trans (hl x hx).1 (hl x hx).2
  have ha0 : (0 : ℚ) ≤ a := by linarith
  have hb0 : (0 : ℚ) ≤ b := by linarith
  obtain ⟨h1, h2⟩ := floatSum_bounds a b (by linarith) l hl 0 0 (by simp) (by simp)
  simp only [Nat.zero_add] at h1 h2
  change _ ≤ floatSum l at h1
  change floatSum l ≤ _ at h2
  have hlo : (1 - 1 / 16777216 : ℚ) ^ l.length * a ≤ floatSum l / (l.length : ℚ) := by
    rw [le_div_iff₀ hq]; linarith
  have hhi : floatSum l / (l.length : ℚ) ≤ (1 + 1 / 16777216 : ℚ) ^ l.length * b := by
    rw [div_le_iff₀ hq]; linarith
  have hp15 : (1 - 1 / 16777216 : ℚ) ^ 15 ≤ (1 - 1 / 16777216 : ℚ) ^ l.length :=
    pow_le_pow_of_le_one (by norm_num) (by norm_num) hn
  have hhalf : (1 / 2 : ℚ) ≤ (1 - 1 / 16777216 : ℚ) ^ 15 := by norm_num
  have hone : 1 ≤ floatSum l / (l.length : ℚ) := by
    refine le_trans ?_ hlo
    nlinarith [mul_le_mul_of_nonneg_right (le_trans hhalf hp15) ha0]
  obtain ⟨f1, f2⟩ := fl32_bounds _ hone
  have hp16 : (1 - 1 / 16777216 : ℚ) ^ 16 ≤ (1 - 1 / 16777216 : ℚ) ^ (l.length + 1) :=
    pow_le_pow_of_le_one (by norm_num) (by norm_num) (by omega)
  have hq16 : (1 + 1 / 16777216 : ℚ) ^ (l.length + 1) ≤ (1 + 1 / 16777216 : ℚ) ^ 16 :=
    pow_le_pow_right₀ (by norm_num) (by omega)
  have h3 : (0 : ℚ) ≤ 1 - 1 / 16777216 := by norm_num
  have h4 : (0 : ℚ) ≤ 1 + 1 / 16777216 := by norm_num
  constructor
  · calc (1 - 1 / 16777216 : ℚ) ^ 16 * a
        ≤ (1 - 1 / 16777216 : ℚ) ^ (l.length + 1) * a :=
          mul_le_mul_of_nonneg_right hp16 ha0
      _ = (1 - 1 / 16777216) * ((1 - 1 / 16777216 : ℚ) ^ l.length * a) := by
          rw [pow_succ]; ring
      _ ≤ (1 - 1 / 16777216) * (floatSum l / (l.length : ℚ)) :=
          mul_le_mul_of_nonneg_left hlo h3
      _ ≤ fl32 (floatSum l / (l.length : ℚ)) := f1
  · calc fl32 (floatSum l / (l.length : ℚ))
        ≤ (1 + 1 / 16777216) * (floatSum l / (l.length : ℚ)) := f2
      _ ≤ (1 + 1 / 16777216) * ((1 + 1 / 16777216 : ℚ) ^ l.length * b) :=
          mul_le_mul_of_nonneg_left hhi h4
      _ = (1 + 1 / 16777216 : ℚ) ^ (l.length + 1) * b := by
          rw [pow_succ]; ring
      _ ≤ (1 + 1 / 16777216 : ℚ) ^ 16 * b :=
          mul_le_mul_of_nonneg_right hq16 hb0

theorem store_measurements_seal (t : ℕ) (d : ℚ) (ctx : Ctx) (h : ctx.sampleCount = 14) :
    (store t d ctx).measurements = sealedBatch d ctx := by
  simp [store, sealedBatch, h]

theorem processMeasurementWith_seal (t : ℕ) (d : ℚ) (ctx : Ctx) (h : ctx.sampleCount = 14)
    (hdue : subU32 t ctx.lastMeasureTime ≥ MEASUREMENT_INTERVAL_MS) :
    processMeasurementWith t d ctx = some (evaluate (store t d ctx)) := by
  unfold processMeasurementWith
  rw [if_pos hdue, takeSample_seal t d ctx h]

theorem valid_range (m : List ℚ) (h : ∀ x ∈ m, x = -1 ∨ (50 ≤ x ∧ x ≤ 300)) :
    ∀ x ∈ validSamples m, 50 ≤ x ∧ x ≤ 300 := by
  intro x hx
  unfold validSamples at hx
  rw [List.mem_filter] at hx
  obtain ⟨hm, hp⟩ := hx
  have hp' : (0 : ℚ) < x := by simpa using hp
  rcases h x hm with h1 | h1
  · rw [h1] at hp'; norm_num at hp'
  · exact h1

theorem validSamples_length_le (m : List ℚ) : (validSamples m).length ≤ m.length := by
  unfold validSamples
  exact List.length_filter_le _ _

/-! ### Fields the evaluation and the restart touch -/

theorem evaluate_fields (c : Ctx) :
    (evaluate c).state = MeasurementState.READY ∧
      (evaluate c).sampleCount = c.sampleCount ∧
      (evaluate c).measurements = c.measurements ∧
      (evaluate c).measurementErrors = c.measurementErrors ∧
      (evaluate c).lastMeasureTime = c.lastMeasureTime ∧
      (evaluate c).lastDisplayTime = c.lastDisplayTime := by
  unfold evaluate
  simp only
  split_ifs <;> simp

theorem evalCount_append (l₁ l₂ : List SerialEvent) :
    evalCount (l₁ ++ l₂) = evalCount l₁ + evalCount l₂ := by
  induction l₁ with
  | nil => simp [evalCount]
  | cons e l ih =>
    cases e <;> simp [evalCount, ih] <;> omega

theorem evaluate_evalCount (c : Ctx) :
    evalCount (evaluate c).serial = evalCount c.serial + 1 := by
  unfold evaluate
  simp only
  split_ifs <;> simp [evalCount_append, evalCount]

theorem store_evalCount (t : ℕ) (d : ℚ) (c : Ctx) :
    evalCount (store t d c).serial = evalCount c.serial := by
  unfold store
  simp only [evalCount_append]
  split_ifs <;> simp [evalCount]

theorem startMeasurement_fields (now : ℕ) (c : Ctx) (hlen : c.measurements.length = 15) :
    startMeasurement now c =
      { c with
        state := MeasurementState.MEASURING
        sampleCount := 0
        lastMeasureTime := now
        measurementErrors := 0
        measurements := List.replicate 15 (-1) } := by
  have h15 : NUM_SAMPLES.toNat = 15 := rfl
  unfold startMeasurement
  rw [h15, clearBuffer_eq c.measurements hlen]

theorem guardedTick_idle (t : ℕ) (d : ℚ) (c : Ctx)
    (h : c.state ≠ MeasurementState.MEASURING) : guardedTick t d c = some c := by
  unfold guardedTick
  rw [if_neg h]

/-! ### Runs of due ticks -/

theorem processMeasurementWith_collect (t : ℕ) (d : ℚ) (c : Ctx)
    (h0 : 0 ≤ c.sampleCount) (h1 : c.sampleCount < 14)
    (hdue : subU32 t c.lastMeasureTime ≥ MEASUREMENT_INTERVAL_MS) :
    processMeasurementWith t d c = some (store t d c) := by
  unfold processMeasurementWith
  rw [if_pos hdue, takeSample_collect t d c h0 h1]

theorem runTicks_collect : ∀ (ticks : List (ℕ × ℚ)) (c : Ctx),
    AllDue ticks c.lastMeasureTime → 0 ≤ c.sampleCount →
    c.sampleCount + (ticks.length : ℤ) ≤ 14 →
    runTicks ticks c = some (collect ticks c) := by
  intro ticks
  induction ticks with
  | nil => intro c _ _ _; rfl
  | cons p rest ih =>
    intro c hdue h0 h1
    obtain ⟨t, d⟩ := p
    obtain ⟨hd, hrest⟩ := hdue
    simp only [List.length_cons, Nat.cast_add, Nat.cast_one] at h1
    have hs : processMeasurementWith t d c = some (store t d c) :=
      processMeasurementWith_collect t d c h0 (by omega) hd
    simp only [runTicks, collect, hs, Option.some_bind]
    apply ih
    · simpa [store] using hrest
    · simp only [store]; omega
    · simp only [store]; omega

theorem runTicks_seal : ∀ (ticks : List (ℕ × ℚ)) (c : Ctx),
    AllDue ticks c.lastMeasureTime → 0 ≤ c.sampleCount →
    c.sampleCount + (ticks.length : ℤ) = 15 → ticks ≠ [] →
    runTicks ticks c = some (evaluate (collect ticks c)) := by
  intro ticks
  induction ticks with
  | nil => intro c _ _ _ h; exact absurd rfl h
  | cons p rest ih =>
    intro c hdue h0 h1 _
    obtain ⟨t, d⟩ := p
    obtain ⟨hd, hrest⟩ := hdue
    simp only [List.length_cons, Nat.cast_add, Nat.cast_one] at h1
    cases rest with
    | nil =>
      simp only [List.length_nil, Nat.cast_zero] at h1
      have hs := processMeasurementWith_seal t d c (by omega) hd
      simp [runTicks, collect, hs]
    | cons p2 rest2 =>
      simp only [List.length_cons, Nat.cast_add, Nat.cast_one] at h1
      have hs : processMeasurementWith t d c = some (store t d c) :=
        processMeasurementWith_collect t d c h0 (by omega) hd
      simp only [runTicks, hs, Option.some_bind]
      have := ih (store t d c) (by simpa [store] using hrest) (by simp only [store]; omega)
        (by simp only [store, List.length_cons, Nat.cast_add, Nat.cast_one]; omega)
        (by simp)
      simpa [runTicks, collect] using this

theorem collect_fields : ∀ (ticks : List (ℕ × ℚ)) (c : Ctx),
    (collect ticks c).state = c.state ∧
      (collect ticks c).sampleCount = c.sampleCount + (ticks.length : ℤ) ∧
      (collect ticks c).lastValidAvg = c.lastValidAvg ∧
      (collect ticks c).lastDisplayTime = c.lastDisplayTime ∧
      evalCount (collect ticks c).serial = evalCount c.serial := by
  intro ticks
  induction ticks with
  | nil => intro c; simp [collect]
  | cons p rest ih =>
    intro c
    obtain ⟨t, d⟩ := p
    obtain ⟨i1, i2, i3, i4, i5⟩ := ih (store t d c)
    simp only [collect]
    refine ⟨by rw [i1]; rfl, ?_, by rw [i3]; rfl, by rw [i4]; rfl, ?_⟩
    · rw [i2]; simp only [store, List.length_cons, Nat.cast_add, Nat.cast_one]; omega
    · rw [i5, store_evalCount]

theorem collect_measurements : ∀ (ticks : List (ℕ × ℚ)) (c : Ctx) (pre post : List ℚ),
    c.measurements = pre ++ post → c.sampleCount = (pre.length : ℤ) →
    ticks.length ≤ post.length →
    (collect ticks c).measurements
      = pre ++ ticks.map (fun p => stored p.2) ++ post.drop ticks.length := by
  intro ticks
  induction ticks with
  | nil => intro c pre post h _ _; simp [collect, h]
  | cons p rest ih =>
    intro c pre post hm hc hl
    obtain ⟨t, d⟩ := p
    cases post with
    | nil => simp at hl
    | cons x post' =>
      simp only [List.length_cons, Nat.add_le_add_iff_right] at hl
      have h1 : (store t d c).measurements = (pre ++ [stored d]) ++ post' := by
        simp [store, hm, hc]
      have h2 : (store t d c).sampleCount = ((pre ++ [stored d]).length : ℤ) := by
        simp [store, hc]
      have := ih (store t d c) (pre ++ [stored d]) post' h1 h2 hl
      simp only [collect, this]
      simp

/-! ### The invariant -/

theorem inv_startMeasurement (now : ℕ) (c : Ctx) (hlen : c.measurements.length = 15) :
    Inv (startMeasurement now c) := by
  rw [startMeasurement_fields now c hlen]
  simp [Inv, NUM_SAMPLES]

theorem inv_report (t0 t2 : ℕ) (c : Ctx) (h : Inv c) : Inv (report t0 t2 c) := by
  unfold report
  split_ifs
  · exact inv_startMeasurement _ _ h.1
  · exact h

theorem inv_evaluate (c : Ctx) (hlen : c.measurements.length = 15)
    (hc : c.sampleCount = 15) : Inv (evaluate c) := by
  obtain ⟨e1, e2, e3, _⟩ := evaluate_fields c
  refine ⟨by rw [e3]; exact hlen, by rw [e2]; omega, by rw [e2, hc]; decide, ?_⟩
  intro h
  rw [e1] at h
  exact absurd h (by decide)

theorem inv_guardedTick (t : ℕ) (d : ℚ) (c : Ctx) (h : Inv c) :
    ∃ c', guardedTick t d c = some c' ∧ Inv c' := by
  obtain ⟨hlen, h0, h15, hm⟩ := h
  unfold guardedTick
  by_cases hs : c.state = MeasurementState.MEASURING
  · rw [if_pos hs]
    have hlt := hm hs
    unfold NUM_SAMPLES at hlt h15
    unfold processMeasurementWith
    by_cases hdue : subU32 t c.lastMeasureTime ≥ MEASUREMENT_INTERVAL_MS
    · rw [if_pos hdue, takeSample_eq, if_pos ⟨h0, hlt⟩]
      have hl : (store t d c).measurements.length = 15 := by simp [store, hlen]
      by_cases hfull : c.sampleCount + 1 ≥ 15
      · rw [if_pos hfull]
        exact ⟨_, rfl, inv_evaluate _ hl (by simp only [store]; omega)⟩
      · rw [if_neg hfull]
        refine ⟨_, rfl, hl, ?_, ?_, ?_⟩
        · simp only [store]; omega
        · simp only [store, NUM_SAMPLES]; omega
        · intro _; simp only [store, NUM_SAMPLES]; omega
    · rw [if_neg hdue]
      exact ⟨c, rfl, hlen, h0, h15, hm⟩
  · rw [if_neg hs]
    exact ⟨c, rfl, hlen, h0, h15, hm⟩

theorem inv_loopWith (t0 t1 t2 : ℕ) (d : ℚ) (c : Ctx) (h : Inv c) :
    ∃ c', loopWith t0 t1 t2 d c = some c' ∧ Inv c' := by
  obtain ⟨c1, h1, h2⟩ := inv_guardedTick t1 d c h
  unfold loopWith
  rw [h1]
  exact ⟨_, rfl, inv_report t0 t2 c1 h2⟩

theorem inv_reachable (c : Ctx) (h : Reachable c) : Inv c := by
  induction h with
  | setup now =>
    unfold setup
    exact inv_startMeasurement _ _ (by simp [initCtx])
  | loop t0 t1 t2 duration _ hstep ih =>
    obtain ⟨c', h1, h2⟩ := inv_loopWith t0 t1 t2 (measureDistance duration) _ ih
    unfold loop at hstep
    rw [h1] at hstep
    cases hstep
    exact h2

/-! ### The 96 mm scenario -/

theorem validSamples_scenario : ∀ ticks : List (ℕ × ℚ),
    (∀ p ∈ ticks, p.2 = 96 ∨ p.2 = -1) →
    validSamples (ticks.map (fun p => stored p.2))
      = List.replicate (ticks.filter (fun p => decide (p.2 = 96))).length 96 := by
  intro ticks
  induction ticks with
  | nil => intro _; simp [validSamples]
  | cons p rest ih =>
    intro h
    have hp := h p (List.mem_cons_self _ _)
    have ih' := ih (fun q hq => h q (List.mem_cons_of_mem _ hq))
    unfold validSamples at ih' ⊢
    have s96 : stored 96 = 96 := by decide!
    have sm1 : stored (-1) = -1 := by decide!
    rcases hp with hp | hp
    · rw [List.map_cons, hp, s96, List.filter_cons, ih']
      simp [hp, List.replicate_succ]
    · rw [List.map_cons, hp, sm1, List.filter_cons, ih']
      have h3 : ¬ (p.2 = 96) := by rw [hp]; norm_num
      simp [h3]

theorem getWaterLevel_congr (a b : Ctx) (h : a.lastValidAvg = b.lastValidAvg) :
    getWaterLevel a = getWaterLevel b := by
  unfold getWaterLevel
  rw [h]

/-! ### Accuracy of the distance conversion -/

theorem sound_speed_eq : sound_speed = 5754585 / 16777216 := by decide!

theorem fl32_err (x : ℚ) (hx : 1 / 1048576 ≤ |x|) :
    |fl32 x - x| ≤ 1 / 16777216 * |x| := by
  have h1 : (2 : ℚ) ^ (-126 : ℤ) ≤ |x| := by
    refine le_trans ?_ hx
    refine le_trans (zpow_le_zpow_right₀ (by norm_num : (1 : ℚ) ≤ 2)
      (by norm_num : (-126 : ℤ) ≤ -20)) ?_
    norm_num [zpow_neg]
  have h := roundBin_err 24 (-126) x h1
  have he : (2 : ℚ) ^ (-((24 : ℕ) : ℤ)) = 1 / 16777216 := by norm_num [zpow_neg]
  rw [he] at h
  exact h

theorem fl64_err (x : ℚ) (hx : 1 / 16 ≤ |x|) :
    |fl64 x - x| ≤ 1 / 9007199254740992 * |x| := by
  have h1 : (2 : ℚ) ^ (-1022 : ℤ) ≤ |x| := by
    refine le_trans ?_ hx
    refine le_trans (zpow_le_zpow_right₀ (by norm_num : (1 : ℚ) ≤ 2)
      (by norm_num : (-1022 : ℤ) ≤ -4)) ?_
    norm_num [zpow_neg]
  have h := roundBin_err 53 (-1022) x h1
  have he : (2 : ℚ) ^ (-((53 : ℕ) : ℤ)) = 1 / 9007199254740992 := by norm_num [zpow_neg]
  rw [he] at h
  exact h

theorem distance_mm_accuracy (duration : ℤ) (h : duration ≠ 0) :
    |distance_mm duration - (duration : ℚ) / 2 * (343 / 1000)|
      ≤ |(duration : ℚ) / 2 * (343 / 1000)| / 8388608 := by
  have hd : (1 : ℚ) ≤ |(duration : ℚ)| := by
    have : (1 : ℤ) ≤ |duration| := Int.one_le_abs h
    exact_mod_cast this
  set x : ℚ := (duration : ℚ) / 2 with hx
  have hxabs : |x| = |(duration : ℚ)| / 2 := by
    rw [hx, abs_div]; norm_num
  have hx2 : 1 / 2 ≤ |x| := by rw [hxabs]; linarith
  have e1 := fl64_err x (by linarith)
  set x1 := fl64 x with hx1
  have b1 : |x1| ≤ |x| + 1 / 9007199254740992 * |x| := by
    have := abs_sub_abs_le_abs_sub x1 x
    linarith
  have b1' : |x| - 1 / 9007199254740992 * |x| ≤ |x1| := by
    have := abs_sub_abs_le_abs_sub x x1
    rw [abs_sub_comm x x1] at this
    linarith
  set y : ℚ := x1 * (5754585 / 16777216) with hy
  have hyabs : |y| = |x1| * (5754585 / 16777216) := by
    rw [hy, abs_mul]; norm_num
  have e2 := fl64_err y (by rw [hyabs]; nlinarith)
  set y1 := fl64 y with hy1
  have b2 : |y1| ≤ |y| + 1 / 9007199254740992 * |y| := by
    have := abs_sub_abs_le_abs_sub y1 y
    linarith
  have b2' : |y| - 1 / 9007199254740992 * |y| ≤ |y1| := by
    have := abs_sub_abs_le_abs_sub y y1
    rw [abs_sub_comm y y1] at this
    linarith
  have e3 := fl32_err y1 (by nlinarith)
  have hdist : distance_mm duration = fl32 y1 := by
    unfold distance_mm
    rw [sound_speed_eq]
  have hgoal : |x * (343 / 1000)| = |x| * (343 / 1000) := by
    rw [abs_mul]; norm_num
  have e4 : |y - x1 * (343 / 1000)| = |x1| * (343 / 1000 - 5754585 / 16777216) := by
    have : y - x1 * (343 / 1000) = x1 * (-(343 / 1000 - 5754585 / 16777216)) := by
      rw [hy]; ring
    rw [this, abs_mul, abs_neg]
    norm_num
  have e5 : |x1 * (343 / 1000) - x * (343 / 1000)| = |x1 - x| * (343 / 1000) := by
    rw [← sub_mul, abs_mul]; norm_num
  have tri : |fl32 y1 - x * (343 / 1000)|
      ≤ |fl32 y1 - y1| + |y1 - y| + |y - x1 * (343 / 1000)|
        + |x1 * (343 / 1000) - x * (343 / 1000)| := by
    have t1 := abs_sub_le (fl32 y1) y1 (x * (343 / 1000))
    have t2 := abs_sub_le y1 y (x * (343 / 1000))
    have t3 := abs_sub_le y (x1 * (343 / 1000)) (x * (343 / 1000))
    linarith
  rw [hdist, hgoal]
  have hx0 : 0 ≤ |x| := abs_nonneg x
  rw [hyabs] at b2 e2
  linarith [tri, e1, e2, e3, e4, e5, b1, b2, hx0, hyabs]

/-! ### The level against exact arithmetic -/

theorem fl32_nonpos (x : ℚ) (h : x ≤ 0) : fl32 x ≤ 0 := by
  have h1 := fl32_mono x 0 h
  have h0 : fl32 0 = 0 := by decide!
  rw [h0] at h1
  exact h1

theorem fl32_nonneg (x : ℚ) (h : 0 ≤ x) : 0 ≤ fl32 x := by
  have h1 := fl32_mono 0 x h
  have h0 : fl32 0 = 0 := by decide!
  rw [h0] at h1
  exact h1

theorem toInt_nonpos (x : ℚ) (h : x ≤ 0) : toInt x ≤ 0 := by
  unfold toInt
  split_ifs with h0
  · have : x = 0 := le_antisymm h h0
    rw [this]; simp
  · exact Int.ceil_le.mpr (by simpa using h)

theorem clampLevel_nonpos (f : ℚ → ℤ) (w : ℚ) (h : f w ≤ 0) : clampLevel f w = 0 := by
  unfold clampLevel
  rw [min_eq_right (by omega), max_eq_left h]

theorem floor_close (a b : ℚ) (h : |a - b| < 1) : |⌊a⌋ - ⌊b⌋| ≤ 1 := by
  rw [abs_lt] at h
  have a1 : ((⌊a⌋ : ℤ) : ℚ) ≤ a := Int.floor_le a
  have a2 : a < ((⌊a⌋ : ℤ) : ℚ) + 1 := Int.lt_floor_add_one a
  have b1 : ((⌊b⌋ : ℤ) : ℚ) ≤ b := Int.floor_le b
  have b2 : b < ((⌊b⌋ : ℤ) : ℚ) + 1 := Int.lt_floor_add_one b
  have h1 : ((⌊a⌋ : ℤ) : ℚ) < ((⌊b⌋ + 2 : ℤ) : ℚ) := by push_cast; linarith
  have h2 : ((⌊b⌋ : ℤ) : ℚ) < ((⌊a⌋ + 2 : ℤ) : ℚ) := by push_cast; linarith
  have h1' : ⌊a⌋ < ⌊b⌋ + 2 := by exact_mod_cast h1
  have h2' : ⌊b⌋ < ⌊a⌋ + 2 := by exact_mod_cast h2
  rw [abs_le]
  constructor <;> omega

theorem clamp_close (x y : ℤ) (h : |x - y| ≤ 1) :
    |max 0 (min 100 x) - max 0 (min 100 y)| ≤ 1 := by
  rw [abs_le] at h ⊢
  simp only [max_def, min_def]
  split_ifs <;> constructor <;> omega

theorem level_close (r : ℚ) (hr : 0 ≤ r) :
    |clampLevel toInt (fl32 (fl32 (fl32 (200 - r) / 104) * 100))
        - clampLevel toInt ((200 - r) / 104 * 100)| ≤ 1 := by
  set s : ℚ := 200 - r with hs
  rcases le_or_lt s 0 with hneg | hpos
  · -- at or above the sensor: both levels are 0
    have a0 : fl32 s ≤ 0 := fl32_nonpos s hneg
    have b0 : fl32 (fl32 s / 104) ≤ 0 :=
      fl32_nonpos _ (div_nonpos_of_nonpos_of_nonneg a0 (by norm_num))
    have c0 : fl32 (fl32 (fl32 s / 104) * 100) ≤ 0 :=
      fl32_nonpos _ (mul_nonpos_of_nonpos_of_nonneg b0 (by norm_num))
    have w0 : s / 104 * 100 ≤ 0 :=
      mul_nonpos_of_nonpos_of_nonneg (div_nonpos_of_nonpos_of_nonneg hneg (by norm_num))
        (by norm_num)
    rw [clampLevel_nonpos toInt _ (toInt_nonpos _ c0),
      clampLevel_nonpos toInt _ (toInt_nonpos _ w0)]
    simp
  · rcases lt_or_le s (1 / 16) with hsmall | hbig
    · -- just below the sensor: both levels are 0
      have a1 : fl32 s ≤ 1 / 16 := by
        have h := fl32_mono s (1 / 16) hsmall.le
        have e : fl32 (1 / 16) = 1 / 16 := by decide!
        rw [e] at h
        exact h
      have a0 : 0 ≤ fl32 s := fl32_nonneg s hpos.le
      have b1 : fl32 (fl32 s / 104) ≤ fl32 (1 / 16 / 104) :=
        fl32_mono _ _ (div_le_div_of_nonneg_right a1 (by norm_num))
      have b0 : 0 ≤ fl32 (fl32 s / 104) := fl32_nonneg _ (div_nonneg a0 (by norm_num))
      have c1 : fl32 (fl32 (fl32 s / 104) * 100) ≤ fl32 (fl32 (1 / 16 / 104) * 100) :=
        fl32_mono _ _ (mul_le_mul_of_nonneg_right b1 (by norm_num))
      have c0 : 0 ≤ fl32 (fl32 (fl32 s / 104) * 100) :=
        fl32_nonneg _ (mul_nonneg b0 (by norm_num))
      have e : fl32 (fl32 (1 / 16 / 104) * 100) < 1 := by decide!
      have hc : toInt (fl32 (fl32 (fl32 s / 104) * 100)) = 0 := by
        unfold toInt
        rw [if_pos c0, Int.floor_eq_iff]
        constructor
        · simpa using c0
        · have := lt_of_le_of_lt c1 e
          simpa using this
      have w0 : 0 ≤ s / 104 * 100 := by positivity
      have w1 : s / 104 * 100 < 1 := by linarith
      have hw : toInt (s / 104 * 100) = 0 := by
        unfold toInt
        rw [if_pos w0, Int.floor_eq_iff]
        constructor
        · simpa using w0
        · simpa using w1
      unfold clampLevel
      rw [hc, hw]
      simp
    · -- the general case: three roundings, each within 2^-24
      have hle : s ≤ 400 := by rw [hs]; linarith
      have e1 := fl32_err s (by rw [abs_of_pos hpos]; linarith)
      rw [abs_of_pos hpos, abs_le] at e1
      set a := fl32 s with ha
      have a0 : 0 < a := by linarith [e1.1]
      have e2 := fl32_err (a / 104) (by
        rw [abs_of_pos (by positivity)]; linarith [e1.1])
      rw [abs_of_pos (by positivity : (0 : ℚ) < a / 104), abs_le] at e2
      set b := fl32 (a / 104) with hb
      have b0 : 0 < b := by
        have : 0 < a / 104 := by positivity
        linarith [e2.1]
      have e3 := fl32_err (b * 100) (by
        rw [abs_of_pos (by positivity)]; linarith [e1.1, e2.1])
      rw [abs_of_pos (by positivity : (0 : ℚ) < b * 100), abs_le] at e3
      set c := fl32 (b * 100) with hc
      have c0 : 0 ≤ c := by
        have : 0 < b * 100 := by positivity
        linarith [e3.1]
      have w0 : 0 ≤ s / 104 * 100 := by positivity
      have hdiff : |c - s / 104 * 100| < 1 := by
        rw [abs_lt]
        constructor <;> linarith [e1.1, e1.2, e2.1, e2.2, e3.1, e3.2]
      unfold clampLevel toInt
      rw [if_pos c0, if_pos w0]
      exact clamp_close _ _ (floor_close _ _ hdiff)

/-! ### Frame properties of one call -/

theorem getWaterLevel_bounds (ctx : Ctx) (h : 0 ≤ ctx.lastValidAvg) :
    0 ≤ getWaterLevel ctx ∧ getWaterLevel ctx ≤ 100 := by
  unfold getWaterLevel
  rw [if_neg (not_lt.mpr h)]
  simp only
  split_ifs <;> constructor <;> omega

theorem getWaterLevel_of_neg (ctx : Ctx) (h : ctx.lastValidAvg < 0) :
    getWaterLevel ctx = -1 := by
  unfold getWaterLevel
  rw [if_pos h]

theorem probeCount_append (l₁ l₂ : List SerialEvent) :
    probeCount (l₁ ++ l₂) = probeCount l₁ + probeCount l₂ := by
  induction l₁ with
  | nil => simp [probeCount]
  | cons e l ih =>
    cases e <;> simp [probeCount, ih] <;> omega

theorem store_probeCount (t : ℕ) (d : ℚ) (c : Ctx) :
    probeCount (store t d c).serial = probeCount c.serial + 1 := by
  unfold store
  simp only [probeCount_append]
  split_ifs <;> simp [probeCount]

theorem evaluate_probeCount (c : Ctx) :
    probeCount (evaluate c).serial = probeCount c.serial := by
  unfold evaluate
  simp only
  split_ifs <;> simp [probeCount_append, probeCount]

theorem processMeasurementWith_not_due (t : ℕ) (d : ℚ) (c : Ctx)
    (h : subU32 t c.lastMeasureTime < MEASUREMENT_INTERVAL_MS) :
    processMeasurementWith t d c = some c := by
  unfold processMeasurementWith
  rw [if_neg (not_le.mpr h)]

theorem processMeasurementWith_due (t : ℕ) (d : ℚ) (c : Ctx)
    (h : subU32 t c.lastMeasureTime ≥ MEASUREMENT_INTERVAL_MS) :
    processMeasurementWith t d c =
      if 0 ≤ c.sampleCount ∧ c.sampleCount < 15 then
        (if c.sampleCount + 1 ≥ 15 then some (evaluate (store t d c))
          else some (store t d c))
      else none := by
  unfold processMeasurementWith
  rw [if_pos h, takeSample_eq]

theorem subU32_wrap (last e : ℕ) (he : e < 4294967296) :
    subU32 ((last + e) % 4294967296) last = (e : ℤ) := by
  unfold subU32
  omega

/-! ### The buffer and the error counter along a batch -/

theorem stored_eq_sentinel_iff (d : ℚ) : stored d = -1 ↔ d ≤ 0 := by
  unfold stored
  by_cases h : d > 0
  · rw [if_pos h]
    constructor
    · intro h1; linarith
    · intro h1; linarith
  · rw [if_neg h]
    simp only [true_iff]
    exact not_lt.mp h

theorem stored_pos_iff (d : ℚ) : 0 < stored d ↔ 0 < d := by
  unfold stored
  by_cases h : d > 0
  · rw [if_pos h]
  · rw [if_neg h]
    constructor
    · intro h1; norm_num at h1
    · intro h1; exact absurd h1 h

theorem collect_errors : ∀ (ticks : List (ℕ × ℚ)) (c : Ctx),
    (collect ticks c).measurementErrors
      = c.measurementErrors + ((ticks.countP fun p => decide (p.2 ≤ 0) : ℕ) : ℤ) := by
  intro ticks
  induction ticks with
  | nil => intro c; simp [collect]
  | cons p rest ih =>
    intro c
    obtain ⟨t, d⟩ := p
    rw [collect, ih]
    by_cases hd : d > 0
    · have h1 : ¬ d ≤ 0 := not_le.mpr hd
      simp [store, hd, h1, List.countP_cons]
    · have h1 : d ≤ 0 := not_lt.mp hd
      simp only [store, hd, if_false, List.countP_cons, h1, decide_True, if_true]
      push_cast
      ring

theorem count_sentinel_stored : ∀ ticks : List (ℕ × ℚ),
    (ticks.map fun p => stored p.2).count (-1) = ticks.countP fun p => decide (p.2 ≤ 0) := by
  intro ticks
  induction ticks with
  | nil => simp
  | cons p rest ih =>
    rw [List.map_cons, List.count_cons, ih, List.countP_cons]
    by_cases h : p.2 ≤ 0
    · have := (stored_eq_sentinel_iff p.2).mpr h
      simp [h, this]
    · have : ¬ stored p.2 = -1 := fun e => h ((stored_eq_sentinel_iff p.2).mp e)
      simp [h, this]

theorem valid_length_stored : ∀ ticks : List (ℕ × ℚ),
    (validSamples (ticks.map fun p => stored p.2)).length
        + (ticks.countP fun p => decide (p.2 ≤ 0)) = ticks.length := by
  intro ticks
  induction ticks with
  | nil => simp [validSamples]
  | cons p rest ih =>
    unfold validSamples at ih ⊢
    rw [List.map_cons, List.filter_cons, List.countP_cons, List.length_cons]
    by_cases h : p.2 ≤ 0
    · have h1 : ¬ 0 < stored p.2 := fun e => absurd ((stored_pos_iff p.2).mp e) (not_lt.mpr h)
      simp only [h1, decide_False, h, decide_True, if_true]
      simp only [Bool.false_eq_true, if_false]
      omega
    · have h1 : 0 < stored p.2 := (stored_pos_iff p.2).mpr (not_le.mp h)
      simp only [h1, decide_True, if_true, h, decide_False, List.length_cons]
      simp only [Bool.false_eq_true, if_false]
      omega

theorem validSamples_append_sentinels (m : List ℚ) (n : ℕ) :
    validSamples (m ++ List.replicate n (-1)) = validSamples m := by
  unfold validSamples
  rw [List.filter_append]
  have : List.filter (fun x : ℚ => decide (0 < x)) (List.replicate n (-1)) = [] := by
    rw [List.filter_eq_nil_iff]
    intro a ha
    rw [List.eq_of_mem_replicate ha]
    norm_num
  rw [this, List.append_nil]

theorem collect_fresh (c0 : Ctx) (t0 : ℕ) (ticks : List (ℕ × ℚ))
    (hlen : c0.measurements.length = 15) (hk : ticks.length ≤ 15) :
    (collect ticks (startMeasurement t0 c0)).measurements
        = (ticks.map fun p => stored p.2) ++ List.replicate (15 - ticks.length) (-1) ∧
      (collect ticks (startMeasurement t0 c0)).sampleCount = (ticks.length : ℤ) ∧
      (collect ticks (startMeasurement t0 c0)).measurementErrors
        = ((ticks.countP fun p => decide (p.2 ≤ 0) : ℕ) : ℤ) := by
  have hs := startMeasurement_fields t0 c0 hlen
  refine ⟨?_, ?_, ?_⟩
  · have := collect_measurements ticks (startMeasurement t0 c0) [] (List.replicate 15 (-1))
      (by rw [hs]; rfl) (by rw [hs]; rfl) (by simpa using hk)
    rw [this, List.drop_replicate, List.nil_append]
  · rw [(collect_fields ticks _).2.1, hs]
    simp
  · rw [collect_errors, hs]
    simp

theorem runTicks_fresh (c0 : Ctx) (t0 : ℕ) (ticks : List (ℕ × ℚ))
    (hlen : c0.measurements.length = 15) (hdue : AllDue ticks t0)
    (hk : ticks.length ≤ 15) :
    (ticks.length < 15 →
        runTicks ticks (startMeasurement t0 c0)
          = some (collect ticks (startMeasurement t0 c0))) ∧
      (ticks.length = 15 →
        runTicks ticks (startMeasurement t0 c0)
          = some (evaluate (collect ticks (startMeasurement t0 c0)))) := by
  have hs := startMeasurement_fields t0 c0 hlen
  have hd : AllDue ticks (startMeasurement t0 c0).lastMeasureTime := by
    rw [hs]; exact hdue
  have h0 : (startMeasurement t0 c0).sampleCount = 0 := by rw [hs]
  constructor
  · intro h
    exact runTicks_collect ticks _ hd (by rw [h0]) (by rw [h0]; omega)
  · intro h
    have hne : ticks ≠ [] := by
      intro e; rw [e] at h; simp at h
    exact runTicks_seal ticks _ hd (by rw [h0]) (by rw [h0, h]; norm_num) hne

/-! ### Monotonicity of the conversion and of the level -/

theorem distance_mm_mono (t₁ t₂ : ℤ) (h : t₁ ≤ t₂) : distance_mm t₁ ≤ distance_mm t₂ := by
  unfold distance_mm
  rw [sound_speed_eq]
  have h1 : (t₁ : ℚ) / 2 ≤ (t₂ : ℚ) / 2 := by
    have : (t₁ : ℚ) ≤ (t₂ : ℚ) := by exact_mod_cast h
    linarith
  have h2 := fl64_mono _ _ h1
  have h3 : fl64 ((t₁ : ℚ) / 2) * (5754585 / 16777216)
      ≤ fl64 ((t₂ : ℚ) / 2) * (5754585 / 16777216) :=
    mul_le_mul_of_nonneg_right h2 (by norm_num)
  exact fl32_mono _ _ (fl64_mono _ _ h3)

theorem distance_mm_window :
    distance_mm 291 < 50 ∧ 50 ≤ distance_mm 292 ∧ distance_mm 1749 ≤ 300 ∧
      300 < distance_mm 1750 := by
  refine ⟨by decide!, by decide!, by decide!, by decide!⟩

theorem toInt_mono (x y : ℚ) (h : x ≤ y) : toInt x ≤ toInt y := by
  unfold toInt
  by_cases hx : 0 ≤ x
  · rw [if_pos hx, if_pos (le_trans hx h)]
    exact Int.floor_le_floor h
  · rw [if_neg hx]
    by_cases hy : 0 ≤ y
    · rw [if_pos hy]
      have h1 : ⌈x⌉ ≤ 0 := Int.ceil_le.mpr (by simpa using (not_le.mp hx).le)
      have h2 : 0 ≤ ⌊y⌋ := Int.le_floor.mpr (by simpa using hy)
      omega
    · rw [if_neg hy]
      exact Int.ceil_le_ceil h

theorem clampLevel_mono (x y : ℚ) (h : x ≤ y) :
    clampLevel toInt x ≤ clampLevel toInt y := by
  unfold clampLevel
  have := toInt_mono x y h
  simp only [max_def, min_def]
  split_ifs <;> omega

theorem levelValue_anti (r₁ r₂ : ℚ) (h : r₁ ≤ r₂) :
    fl32 (fl32 (fl32 (200 - r₂) / 104) * 100) ≤ fl32 (fl32 (fl32 (200 - r₁) / 104) * 100) := by
  have h1 : fl32 (200 - r₂) ≤ fl32 (200 - r₁) := fl32_mono _ _ (by linarith)
  have h2 : fl32 (fl32 (200 - r₂) / 104) ≤ fl32 (fl32 (200 - r₁) / 104) :=
    fl32_mono _ _ (div_le_div_of_nonneg_right h1 (by norm_num))
  exact fl32_mono _ _ (mul_le_mul_of_nonneg_right h2 (by norm_num))

theorem getWaterLevel_eq_clamp (ctx : Ctx) (h : 0 ≤ ctx.lastValidAvg) :
    getWaterLevel ctx =
      clampLevel toInt (fl32 (fl32 (fl32 (200 - ctx.lastValidAvg) / 104) * 100)) := by
  have hs : sensor_height = 200 := by decide!
  have hg : glass_height = 104 := by decide!
  unfold getWaterLevel clampLevel
  rw [if_neg (not_lt.mpr h), hs, hg]
  simp only
  split_ifs with h1 h2 h2
  · omega
  · rw [min_eq_right (by omega), max_eq_left (by omega)]
  · rw [min_eq_left (by omega)]; simp
  · rw [min_eq_right (by omega), max_eq_right (by omega)]

/-- The rational 198.960000001 is not a `float`; as a reading it would give the level 1.  The
level is 0 above 198.96 on `float` readings only. -/
theorem getWaterLevel_off_grid :
    getWaterLevel (withReading (198960000001 / 1000000000)) = 1 ∧
      fl32 (198960000001 / 1000000000) ≠ 198960000001 / 1000000000 := by
  refine ⟨by decide!, by decide!⟩

/-! ### The published reading stays in the plausibility window -/

theorem fl32_exact_multiples (j : ℕ) (hj : j ≤ 15) :
    fl32 (50 * (j : ℚ)) = 50 * (j : ℚ) ∧ fl32 (300 * (j : ℚ)) = 300 * (j : ℚ) := by
  interval_cases j <;> exact ⟨by decide!, by decide!⟩

theorem floatSum_window : ∀ (l : List ℚ), (∀ x ∈ l, 50 ≤ x ∧ x ≤ 300) →
    ∀ (k : ℕ) (s0 : ℚ), k + l.length ≤ 15 → 50 * (k : ℚ) ≤ s0 → s0 ≤ 300 * (k : ℚ) →
      50 * ((k + l.length : ℕ) : ℚ) ≤ l.foldl (fun acc x => fl32 (acc + x)) s0 ∧
        l.foldl (fun acc x => fl32 (acc + x)) s0 ≤ 300 * ((k + l.length : ℕ) : ℚ) := by
  intro l
  induction l with
  | nil =>
    intro _ k s0 _ h1 h2
    simp only [List.length_nil, Nat.add_zero, List.foldl_nil]
    exact ⟨h1, h2⟩
  | cons x l ih =>
    intro hl k s0 hk h1 h2
    have hx := hl x (List.mem_cons_self _ _)
    have hl' : ∀ y ∈ l, 50 ≤ y ∧ y ≤ 300 := fun y hy => hl y (List.mem_cons_of_mem _ hy)
    simp only [List.length_cons] at hk
    obtain ⟨e1, e2⟩ := fl32_exact_multiples (k + 1) (by omega)
    have lo : 50 * ((k + 1 : ℕ) : ℚ) ≤ fl32 (s0 + x) := by
      rw [← e1]
      apply fl32_mono
      push_cast
      linarith [hx.1]
    have hi : fl32 (s0 + x) ≤ 300 * ((k + 1 : ℕ) : ℚ) := by
      rw [← e2]
      apply fl32_mono
      push_cast
      linarith [hx.2]
    rw [List.foldl_cons, List.length_cons]
    have e : k + (l.length + 1) = (k + 1) + l.length := by ring
    rw [e]
    exact ih hl' (k + 1) (fl32 (s0 + x)) (by omega) lo hi

theorem float_mean_window (l : List ℚ) (hl : ∀ x ∈ l, 50 ≤ x ∧ x ≤ 300)
    (hn0 : 0 < l.length) (hn : l.length ≤ 15) :
    50 ≤ fl32 (floatSum l / (l.length : ℚ)) ∧ fl32 (floatSum l / (l.length : ℚ)) ≤ 300 := by
  have hq : (0 : ℚ) < (l.length : ℚ) := by exact_mod_cast hn0
  obtain ⟨h1, h2⟩ := floatSum_window l hl 0 0 (by omega) (by simp) (by simp)
  simp only [Nat.zero_add] at h1 h2
  change _ ≤ floatSum l at h1
  change floatSum l ≤ _ at h2
  have a1 : (50 : ℚ) ≤ floatSum l / (l.length : ℚ) := by
    rw [le_div_iff₀ hq]; linarith
  have a2 : floatSum l / (l.length : ℚ) ≤ 300 := by
    rw [div_le_iff₀ hq]; linarith
  have e50 : fl32 50 = 50 := by decide!
  have e300 : fl32 300 = 300 := by decide!
  constructor
  · have := fl32_mono _ _ a1
    rw [e50] at this
    exact this
  · have := fl32_mono _ _ a2
    rw [e300] at this
    exact this

theorem measureDistance_range (duration : ℤ) :
    measureDistance duration = -1 ∨
      (50 ≤ measureDistance duration ∧ measureDistance duration ≤ 300) := by
  unfold measureDistance
  split_ifs with h0 h1
  · exact Or.inl rfl
  · exact Or.inl rfl
  · right
    constructor
    · exact not_lt.mp (fun e => h1 (Or.inr e))
    · exact not_lt.mp (fun e => h1 (Or.inl e))

theorem inRange_startMeasurement (now : ℕ) (c : Ctx) (hlen : c.measurements.length = 15)
    (h : 50 ≤ c.lastValidAvg ∧ c.lastValidAvg ≤ 300) : InRange (startMeasurement now c) := by
  rw [startMeasurement_fields now c hlen]
  refine ⟨?_, h⟩
  intro x hx hpos
  simp only at hx
  rw [List.eq_of_mem_replicate hx] at hpos
  norm_num at hpos

theorem inRange_store (t : ℕ) (d : ℚ) (c : Ctx) (h : InRange c)
    (hd : d = -1 ∨ (50 ≤ d ∧ d ≤ 300)) : InRange (store t d c) := by
  obtain ⟨hb, ha⟩ := h
  refine ⟨?_, ha⟩
  intro x hx hpos
  simp only [store] at hx
  rcases List.mem_or_eq_of_mem_set hx with hmem | heq
  · exact hb x hmem hpos
  · rw [heq] at hpos ⊢
    rcases hd with hd | hd
    · rw [hd] at hpos
      have : stored (-1) = -1 := by decide!
      rw [this] at hpos
      norm_num at hpos
    · have : stored d = d := by
        unfold stored
        rw [if_pos (by linarith [hd.1])]
      rw [this]
      exact hd

theorem inRange_evaluate (c : Ctx) (hlen : c.measurements.length = 15) (h : InRange c) :
    InRange (evaluate c) := by
  obtain ⟨hb, ha⟩ := h
  rcases Nat.lt_or_ge (validSamples c.measurements).length 12 with hlt | hge
  · rw [evaluate_reject c hlen hlt]
    exact ⟨hb, ha⟩
  · rw [evaluate_accept c hlen hge]
    refine ⟨hb, ?_⟩
    have hv : ∀ x ∈ validSamples c.measurements, 50 ≤ x ∧ x ≤ 300 := by
      intro x hx
      unfold validSamples at hx
      rw [List.mem_filter] at hx
      exact hb x hx.1 (by simpa using hx.2)
    have h15 : (validSamples c.measurements).length ≤ 15 := by
      have := validSamples_length_le c.measurements
      omega
    exact float_mean_window _ hv (by omega) h15

theorem inRange_guardedTick (t : ℕ) (duration : ℤ) (c c' : Ctx) (hi : Inv c)
    (h : InRange c) (hrun : guardedTick t (measureDistance duration) c = some c') :
    InRange c' := by
  unfold guardedTick at hrun
  by_cases hs : c.state = MeasurementState.MEASURING
  · rw [if_pos hs] at hrun
    by_cases hdue : subU32 t c.lastMeasureTime ≥ MEASUREMENT_INTERVAL_MS
    · rw [processMeasurementWith_due t _ c hdue] at hrun
      have hst := inRange_store t (measureDistance duration) c h (measureDistance_range duration)
      have hl : (store t (measureDistance duration) c).measurements.length = 15 := by
        simp [store, hi.1]
      split_ifs at hrun
      · rw [← Option.some.inj hrun]
        exact inRange_evaluate _ hl hst
      · rw [← Option.some.inj hrun]
        exact hst
    · rw [processMeasurementWith_not_due t _ c (not_le.mp hdue)] at hrun
      rw [← Option.some.inj hrun]
      exact h
  · rw [if_neg hs] at hrun
    rw [← Option.some.inj hrun]
    exact h

theorem inRange_report (t0 t2 : ℕ) (c : Ctx) (hi : Inv c) (h : InRange c) :
    InRange (report t0 t2 c) := by
  unfold report
  split_ifs
  · exact inRange_startMeasurement _ _ hi.1 h.2
  · exact h

theorem inRange_reachable (c : Ctx) (h : Reachable c) : InRange c := by
  induction h with
  | setup now =>
    unfold setup
    apply inRange_startMeasurement
    · simp [initCtx]
    · have e : initCtx.lastValidAvg = 96 := by decide!
      simp only [e]
      norm_num
  | loop t0 t1 t2 duration hprev hstep ih =>
    have hi := inv_reachable _ hprev
    obtain ⟨c1, h1, hi1⟩ := inv_guardedTick t1 (measureDistance duration) _ hi
    unfold loop loopWith at hstep
    rw [h1, Option.map_some'] at hstep
    rw [← Option.some.inj hstep]
    exact inRange_report t0 t2 c1 hi1 (inRange_guardedTick t1 duration _ c1 hi ih h1)

/-! ### The claims -/

/-- C1: for every echo duration, `measureDistance` computes the distance
`d = (duration / 2.0) * sound_speed` in floating point, within a relative error of `2^-23`
of `(duration / 2) * 0.343`; it returns `d` itself when the duration is non-zero and
`50 ≤ d ≤ 300` (both bounds inclusive) and the sentinel `-1` in every other case; so every
result is the sentinel or lies in `[50, 300]`. -/
theorem measureDistance_filter (duration : ℤ) :
    (duration ≠ 0 →
        |distance_mm duration - (duration : ℚ) / 2 * (343 / 1000)|
          ≤ |(duration : ℚ) / 2 * (343 / 1000)| / 8388608) ∧
      measureDistance duration =
        (if duration ≠ 0 ∧ 50 ≤ distance_mm duration ∧ distance_mm duration ≤ 300
          then distance_mm duration else -1) ∧
      (measureDistance duration = -1 ∨
        (50 ≤ measureDistance duration ∧ measureDistance duration ≤ 300)) := by
  refine ⟨distance_mm_accuracy duration, ?_⟩
  unfold measureDistance
  by_cases h0 : duration = 0
  · simp [h0]
  · by_cases h1 : distance_mm duration > 300 ∨ distance_mm duration < 50
    · have h2 : ¬ (50 ≤ distance_mm duration ∧ distance_mm duration ≤ 300) := by
        rintro ⟨ha, hb⟩
        rcases h1 with h | h
        · exact absurd hb (not_le.mpr h)
        · exact absurd ha (not_le.mpr h)
      simp [h0, h1, h2]
    · have h2 : 50 ≤ distance_mm duration ∧ distance_mm duration ≤ 300 := by
        constructor
        · by_contra h
          exact h1 (Or.inr (not_le.mp h))
        · by_contra h
          exact h1 (Or.inl (not_le.mp h))
      simp [h0, h1, h2]

/-- Witness of C1: an echo of 560 µs, about 96 mm. -/
theorem measureDistance_filter_witness :
    (560 : ℤ) ≠ 0 ∧
      |distance_mm 560 - ((560 : ℤ) : ℚ) / 2 * (343 / 1000)|
        ≤ |((560 : ℤ) : ℚ) / 2 * (343 / 1000)| / 8388608 ∧
      (measureDistance 560 = -1 ∨ (50 ≤ measureDistance 560 ∧ measureDistance 560 ≤ 300)) :=
  ⟨by decide, (measureDistance_filter 560).1 (by decide), (measureDistance_filter 560).2.2⟩

/-- C2 (amended): on the sealing tick of a batch whose 15 samples are the sentinel or lie
in `[50, 300]` and of which at least 12 are valid, `processMeasurement` sets `lastValidAvg`
to the `float` quotient of the `float` running sum of the valid samples by their number,
and reports `minVal` and `maxVal`, the true minimum and maximum of the valid samples.  The
exact mean of the valid samples lies between `minVal` and `maxVal`; the stored, rounded,
average lies between `(1 - 2^-24)^16 * minVal` and `(1 + 2^-24)^16 * maxVal`. -/
theorem sealing_tick_accepts (ctx : Ctx) (t : ℕ) (d : ℚ)
    (hlen : ctx.measurements.length = 15) (hcount : ctx.sampleCount = 14)
    (hdue : subU32 t ctx.lastMeasureTime ≥ MEASUREMENT_INTERVAL_MS)
    (hrange : ∀ x ∈ sealedBatch d ctx, x = -1 ∨ (50 ≤ x ∧ x ≤ 300))
    (hvalid : 12 ≤ (validSamples (sealedBatch d ctx)).length) :
    ∃ (ctx' : Ctx) (minVal maxVal : ℚ),
      processMeasurementWith t d ctx = some ctx' ∧
      ctx'.lastValidAvg = fl32 (floatSum (validSamples (sealedBatch d ctx))
        / ((validSamples (sealedBatch d ctx)).length : ℚ)) ∧
      ctx'.serial = ctx.serial ++
        [if d > 0 then SerialEvent.dot else SerialEvent.cross,
         SerialEvent.ok ((validSamples (sealedBatch d ctx)).length : ℤ) minVal maxVal
           ctx'.lastValidAvg] ∧
      minVal ∈ validSamples (sealedBatch d ctx) ∧
      (∀ x ∈ validSamples (sealedBatch d ctx), minVal ≤ x) ∧
      maxVal ∈ validSamples (sealedBatch d ctx) ∧
      (∀ x ∈ validSamples (sealedBatch d ctx), x ≤ maxVal) ∧
      minVal ≤ (validSamples (sealedBatch d ctx)).sum
        / ((validSamples (sealedBatch d ctx)).length : ℚ) ∧
      (validSamples (sealedBatch d ctx)).sum
        / ((validSamples (sealedBatch d ctx)).length : ℚ) ≤ maxVal ∧
      (1 - 1 / 16777216) ^ 16 * minVal ≤ ctx'.lastValidAvg ∧
      ctx'.lastValidAvg ≤ (1 + 1 / 16777216) ^ 16 * maxVal := by
  have hm : (store t d ctx).measurements = sealedBatch d ctx :=
    store_measurements_seal t d ctx hcount
  have hlen' : (store t d ctx).measurements.length = 15 := by
    rw [hm]; simp [sealedBatch, hlen]
  have hv' : 12 ≤ (validSamples (store t d ctx).measurements).length := by rw [hm]; exact hvalid
  have hev := evaluate_accept (store t d ctx) hlen' hv'
  rw [hm] at hev
  set l := validSamples (sealedBatch d ctx) with hl
  have hr := valid_range _ hrange
  rw [← hl] at hr
  have hpos : 0 < l.length := by omega
  have h15 : l.length ≤ 15 := by
    have := validSamples_length_le (sealedBatch d ctx)
    rw [← hl] at this
    simpa [sealedBatch, hlen] using this
  obtain ⟨x0, hx0⟩ := List.exists_mem_of_length_pos hpos
  obtain ⟨_, mn2, mn3⟩ := foldl_min_spec l 999
  obtain ⟨_, mx2, mx3⟩ := foldl_max_spec l 0
  set mn := l.foldl (fun acc x => if x < acc then x else acc) 999 with hmn
  set mx := l.foldl (fun acc x => if x > acc then x else acc) 0 with hmx
  have hmn_mem : mn ∈ l := by
    rcases mn3 with h | h
    · have := mn2 x0 hx0
      have := (hr x0 hx0).2
      linarith
    · exact h
  have hmx_mem : mx ∈ l := by
    rcases mx3 with h | h
    · have := mx2 x0 hx0
      have := (hr x0 hx0).1
      linarith
    · exact h
  have hbox : ∀ x ∈ l, mn ≤ x ∧ x ≤ mx := fun x hx => ⟨mn2 x hx, mx2 x hx⟩
  obtain ⟨e1, e2⟩ := list_mean_bounds mn mx l hbox hpos
  obtain ⟨b1, b2⟩ := float_mean_bounds mn mx (hr mn hmn_mem).1 l hbox hpos h15
  refine ⟨evaluate (store t d ctx), mn, mx, processMeasurementWith_seal t d ctx hcount hdue,
    ?_, ?_, hmn_mem, mn2, hmx_mem, mx2, e1, e2, ?_, ?_⟩
  · rw [hev]
  · rw [hev]; simp [store]
  · rw [hev]; exact b1
  · rw [hev]; exact b2

/-- C3: on the sealing tick of a batch with fewer than 12 valid samples,
`processMeasurement` leaves `lastValidAvg` as it was, whatever its value, and reports the
failure. -/
theorem sealing_tick_rejects (ctx : Ctx) (t : ℕ) (d : ℚ)
    (hlen : ctx.measurements.length = 15) (hcount : ctx.sampleCount = 14)
    (hdue : subU32 t ctx.lastMeasureTime ≥ MEASUREMENT_INTERVAL_MS)
    (hvalid : (validSamples (sealedBatch d ctx)).length < 12) :
    ∃ ctx' : Ctx,
      processMeasurementWith t d ctx = some ctx' ∧
      ctx'.lastValidAvg = ctx.lastValidAvg ∧
      ctx'.serial = ctx.serial ++
        [if d > 0 then SerialEvent.dot else SerialEvent.cross,
         SerialEvent.fail ((validSamples (sealedBatch d ctx)).length : ℤ)] := by
  have hm : (store t d ctx).measurements = sealedBatch d ctx :=
    store_measurements_seal t d ctx hcount
  have hlen' : (store t d ctx).measurements.length = 15 := by
    rw [hm]; simp [sealedBatch, hlen]
  have hv' : (validSamples (store t d ctx).measurements).length < 12 := by
    rw [hm]; exact hvalid
  have hev := evaluate_reject (store t d ctx) hlen' hv'
  rw [hm] at hev
  refine ⟨evaluate (store t d ctx), processMeasurementWith_seal t d ctx hcount hdue, ?_, ?_⟩
  · rw [hev]; simp [store]
  · rw [hev]; simp [store]

/-- Witness of C2: fourteen samples of 96 mm in the buffer and a fifteenth of 96 mm. -/
theorem sealing_tick_accepts_witness :
    (collecting (List.replicate 14 96 ++ [-1]) 0 120).sampleCount = 14 ∧
      12 ≤ (validSamples (sealedBatch 96
        (collecting (List.replicate 14 96 ++ [-1]) 0 120))).length ∧
      ∃ ctx' : Ctx,
        processMeasurementWith 3000 96 (collecting (List.replicate 14 96 ++ [-1]) 0 120)
          = some ctx' ∧
        ctx'.lastValidAvg = 96 := by
  refine ⟨by decide!, by decide!, ?_⟩
  obtain ⟨c, mn, mx, h1, h2, _⟩ :=
    sealing_tick_accepts (collecting (List.replicate 14 96 ++ [-1]) 0 120) 3000 96
      (by decide!) (by decide!) (by decide!) (by decide!) (by decide!)
  refine ⟨c, h1, ?_⟩
  rw [h2]
  decide!

/-- Counterexample to C2 as stated: with fifteen samples of 13172605/262144 mm (the
distance `measureDistance` returns for an echo of 293 µs) the batch is accepted, the exact
mean and the true maximum are both 13172605/262144, and the average stored in
`lastValidAvg` is 13172607/262144, which is neither the mean nor at most the maximum. -/
theorem sealing_tick_mean_above_max :
    measureDistance 293 = 13172605 / 262144 ∧
      (∀ x ∈ sealedBatch (measureDistance 293)
          (collecting (List.replicate 14 (measureDistance 293) ++ [-1]) 0 96),
        x = -1 ∨ (50 ≤ x ∧ x ≤ 300)) ∧
      (validSamples (sealedBatch (measureDistance 293)
          (collecting (List.replicate 14 (measureDistance 293) ++ [-1]) 0 96))).length = 15 ∧
      (processMeasurementWith 3000 (measureDistance 293)
          (collecting (List.replicate 14 (measureDistance 293) ++ [-1]) 0 96)).map
          (fun c => (c.lastValidAvg, c.serial))
        = some (13172607 / 262144,
            [SerialEvent.dot,
              SerialEvent.ok 15 (13172605 / 262144) (13172605 / 262144)
                (13172607 / 262144)]) ∧
      (validSamples (sealedBatch (measureDistance 293)
          (collecting (List.replicate 14 (measureDistance 293) ++ [-1]) 0 96))).sum / 15
        = 13172605 / 262144 ∧
      ¬ ((13172607 / 262144 : ℚ) ≤ 13172605 / 262144) := by
  refine ⟨by decide!, by decide!, by decide!, by decide!, by decide!, by decide!⟩

/-- Witness of C3: ten valid samples and five invalid ones, the published reading 120 mm. -/
theorem sealing_tick_rejects_witness :
    (validSamples (sealedBatch (-1)
        (collecting (List.replicate 10 96 ++ List.replicate 5 (-1)) 4 120))).length = 10 ∧
      ∃ ctx' : Ctx,
        processMeasurementWith 3000 (-1)
            (collecting (List.replicate 10 96 ++ List.replicate 5 (-1)) 4 120) = some ctx' ∧
          ctx'.lastValidAvg = 120 ∧
          ctx'.serial = [SerialEvent.cross, SerialEvent.fail 10] := by
  refine ⟨by decide!, ?_⟩
  obtain ⟨c, h1, h2, h3⟩ :=
    sealing_tick_rejects (collecting (List.replicate 10 96 ++ List.replicate 5 (-1)) 4 120)
      3000 (-1) (by decide!) (by decide!) (by decide!) (by decide!)
  refine ⟨c, h1, h2, ?_⟩
  rw [h3]
  decide!

/-- C4 (amended): for every non-negative value of `lastValidAvg`, inside or outside the
physical range `[50, 300]`, `getWaterLevel` returns an integer in `[0, 100]`. -/
theorem getWaterLevel_range (ctx : Ctx) (h : 0 ≤ ctx.lastValidAvg) :
    0 ≤ getWaterLevel ctx ∧ getWaterLevel ctx ≤ 100 := by
  unfold getWaterLevel
  rw [if_neg (not_lt.mpr h)]
  simp only
  split_ifs <;> constructor <;> omega

/-- Witness of C4: a published reading of 1000 mm, far outside the physical range. -/
theorem getWaterLevel_range_witness :
    (0 : ℚ) ≤ (withReading 1000).lastValidAvg ∧
      0 ≤ getWaterLevel (withReading 1000) ∧ getWaterLevel (withReading 1000) ≤ 100 :=
  ⟨by decide!, getWaterLevel_range (withReading 1000) (by decide!)⟩

/-- Counterexample to C4 as stated: for the negative reading -1 `getWaterLevel` returns
-1, which is not in `[0, 100]`. -/
theorem getWaterLevel_negative_reading :
    getWaterLevel (withReading (-1)) = -1 ∧
      ¬ (0 ≤ getWaterLevel (withReading (-1)) ∧ getWaterLevel (withReading (-1)) ≤ 100) := by
  refine ⟨by decide!, by decide!⟩

/-- C5 (amended): for every reading `r = lastValidAvg ≥ 0`, the reading for which
`getWaterLevel` returns a percentage, the result is `clamp(trunc(w), 0, 100)`, where `trunc`
is truncation toward zero and `w` is `(200 - r) / 104 * 100` evaluated in `float`; it
differs by at most 1 from `clamp(trunc((200 - r) / 104 * 100), 0, 100)` computed exactly. -/
theorem getWaterLevel_formula (ctx : Ctx) (h : 0 ≤ ctx.lastValidAvg) :
    getWaterLevel ctx =
        clampLevel toInt (fl32 (fl32 (fl32 (200 - ctx.lastValidAvg) / 104) * 100)) ∧
      |getWaterLevel ctx - clampLevel toInt ((200 - ctx.lastValidAvg) / 104 * 100)| ≤ 1 := by
  have hs : sensor_height = 200 := by decide!
  have hg : glass_height = 104 := by decide!
  have key : getWaterLevel ctx =
      clampLevel toInt (fl32 (fl32 (fl32 (200 - ctx.lastValidAvg) / 104) * 100)) := by
    unfold getWaterLevel clampLevel
    rw [if_neg (not_lt.mpr h), hs, hg]
    simp only
    split_ifs with h1 h2 h2
    · omega
    · rw [min_eq_right (by omega), max_eq_left (by omega)]
    · rw [min_eq_left (by omega)]; simp
    · rw [min_eq_right (by omega), max_eq_right (by omega)]
  refine ⟨key, ?_⟩
  rw [key]
  exact level_close ctx.lastValidAvg h

/-- Witness of C5: the reading 12016681/65536 mm (about 183.36 mm), a `float`, for which the
level is 16 while the exactly computed level is 15. -/
theorem getWaterLevel_formula_witness :
    (0 : ℚ) ≤ (withReading (12016681 / 65536)).lastValidAvg ∧
      (getWaterLevel (withReading (12016681 / 65536)) =
          clampLevel toInt (fl32 (fl32 (fl32
            (200 - (withReading (12016681 / 65536)).lastValidAvg) / 104) * 100)) ∧
        |getWaterLevel (withReading (12016681 / 65536))
            - clampLevel toInt
              ((200 - (withReading (12016681 / 65536)).lastValidAvg) / 104 * 100)| ≤ 1) ∧
      getWaterLevel (withReading (12016681 / 65536)) = 16 ∧
      clampLevel toInt ((200 - (withReading (12016681 / 65536)).lastValidAvg) / 104 * 100)
        = 15 :=
  ⟨by decide!, getWaterLevel_formula (withReading (12016681 / 65536)) (by decide!),
    by decide!, by decide!⟩

/-- Counterexample to C5 as stated: for the reading 199 mm `getWaterLevel` returns 0, while
`(200 - 199) / 104 * 100 = 25/26` rounds to 1 under either rounding to nearest. -/
theorem getWaterLevel_truncates :
    getWaterLevel (withReading 199) = 0 ∧
      clampLevel round ((200 - (withReading 199).lastValidAvg) / 104 * 100) = 1 ∧
      clampLevel roundHalfEven ((200 - (withReading 199).lastValidAvg) / 104 * 100) = 1 := by
  refine ⟨by decide!, by decide!, by decide!⟩

/-- C6 (amended): the tick that completes a batch, whether the batch is accepted or
rejected, leaves the state `READY` with `sampleCount` 15, the buffer holding the batch and
the error counter counting its invalid samples; no new batch has started.  While the state
is `READY` the guarded call of `loop` does nothing and a `loop` iteration whose report is
not due changes nothing; the next batch starts only with the `startMeasurement` of the
report of `loop`, due 5000 ms after the previous one. -/
theorem sealing_tick_waits (ctx : Ctx) (t : ℕ) (d : ℚ)
    (hlen : ctx.measurements.length = 15) (hcount : ctx.sampleCount = 14)
    (hdue : subU32 t ctx.lastMeasureTime ≥ MEASUREMENT_INTERVAL_MS) :
    ∃ ctx' : Ctx,
      processMeasurementWith t d ctx = some ctx' ∧
      ctx'.state = MeasurementState.READY ∧
      ctx'.sampleCount = 15 ∧
      ctx'.measurements = sealedBatch d ctx ∧
      ctx'.measurementErrors = ctx.measurementErrors + (if d > 0 then 0 else 1) ∧
      (∀ (t1 : ℕ) (d1 : ℚ), guardedTick t1 d1 ctx' = some ctx') ∧
      (∀ (t0 t1 t2 : ℕ) (d1 : ℚ), subU32 t0 ctx'.lastDisplayTime < 5000 →
        loopWith t0 t1 t2 d1 ctx' = some ctx') ∧
      (∀ (t0 t1 t2 : ℕ) (d1 : ℚ), subU32 t0 ctx'.lastDisplayTime ≥ 5000 →
        ∃ c : Ctx, loopWith t0 t1 t2 d1 ctx' = some c ∧
          c.state = MeasurementState.MEASURING ∧ c.sampleCount = 0 ∧
          c.measurementErrors = 0 ∧ c.measurements = List.replicate 15 (-1) ∧
          c.lastMeasureTime = t2) := by
  obtain ⟨e1, e2, e3, e4, _, _⟩ := evaluate_fields (store t d ctx)
  have hm : (store t d ctx).measurements = sealedBatch d ctx :=
    store_measurements_seal t d ctx hcount
  have hidle : ∀ (t1 : ℕ) (d1 : ℚ),
      guardedTick t1 d1 (evaluate (store t d ctx)) = some (evaluate (store t d ctx)) := by
    intro t1 d1
    apply guardedTick_idle
    rw [e1]
    decide
  have hlen' : (evaluate (store t d ctx)).measurements.length = 15 := by
    rw [e3, hm]; simp [sealedBatch, hlen]
  refine ⟨evaluate (store t d ctx), processMeasurementWith_seal t d ctx hcount hdue, e1,
    ?_, ?_, ?_, hidle, ?_, ?_⟩
  · rw [e2]; simp only [store]; omega
  · rw [e3, hm]
  · rw [e4]; rfl
  · intro t0 t1 t2 d1 h
    unfold loopWith report
    rw [hidle, Option.map_some', if_neg (not_le.mpr h)]
  · intro t0 t1 t2 d1 h
    unfold loopWith report
    rw [hidle, Option.map_some', if_pos h]
    refine ⟨_, rfl, ?_⟩
    rw [startMeasurement_fields _ _ (by simpa using hlen')]
    simp

/-- Witness of C6: the fifteenth sample of a batch of 96 mm samples. -/
theorem sealing_tick_waits_witness :
    (collecting (List.replicate 14 96 ++ [-1]) 0 120).sampleCount = 14 ∧
      ∃ ctx' : Ctx,
        processMeasurementWith 3000 96 (collecting (List.replicate 14 96 ++ [-1]) 0 120)
          = some ctx' ∧
        ctx'.state = MeasurementState.READY ∧ ctx'.sampleCount = 15 := by
  refine ⟨by decide!, ?_⟩
  obtain ⟨c, h1, h2, h3, _⟩ :=
    sealing_tick_waits (collecting (List.replicate 14 96 ++ [-1]) 0 120) 3000 96
      (by decide!) (by decide!) (by decide!)
  exact ⟨c, h1, h2, h3⟩

/-- Counterexample to C6 as stated: after the evaluation of an accepted batch (fifteen
samples of 96 mm) and of a rejected one (ten valid, five invalid) the state is `READY`, not
`MEASURING`, `sampleCount` is 15, not 0, and buffer and error counter still hold the
batch. -/
theorem sealed_batch_not_restarted :
    (processMeasurementWith 3000 96 (collecting (List.replicate 14 96 ++ [-1]) 0 120)).map
        (fun c => (c.state, c.sampleCount, c.measurementErrors, c.measurements))
      = some (MeasurementState.READY, 15, 0, List.replicate 15 96) ∧
    (processMeasurementWith 3000 (-1)
        (collecting (List.replicate 10 96 ++ List.replicate 5 (-1)) 4 120)).map
        (fun c => (c.state, c.sampleCount, c.measurementErrors, c.measurements))
      = some (MeasurementState.READY, 15, 5,
          List.replicate 10 96 ++ List.replicate 5 (-1)) := by
  refine ⟨by decide!, by decide!⟩

/-- C7: in every state reachable from `setup` by `loop` iterations with arbitrary clock
values and echo durations, `0 ≤ sampleCount ≤ NUM_SAMPLES = 15`, the buffer has its 15 slots,
and `sampleCount < 15` whenever the state is `MEASURING`; hence the next `loop` iteration
completes, its write `measurements[sampleCount]`, if any, falling inside the buffer. -/
theorem reachable_sampleCount_bounds (c : Ctx) (h : Reachable c) :
    0 ≤ c.sampleCount ∧ c.sampleCount ≤ NUM_SAMPLES ∧ NUM_SAMPLES = 15 ∧
      c.measurements.length = 15 ∧
      (c.state = MeasurementState.MEASURING → c.sampleCount < 15) ∧
      (∀ (t0 t1 t2 : ℕ) (duration : ℤ), ∃ c' : Ctx, loop t0 t1 t2 duration c = some c') ∧
      (∀ (t1 : ℕ) (duration : ℤ), c.state = MeasurementState.MEASURING →
        subU32 t1 c.lastMeasureTime ≥ MEASUREMENT_INTERVAL_MS →
        ∃ c' : Ctx, processMeasurement t1 duration c = some c' ∧
          c'.measurements = c.measurements.set c.sampleCount.toNat
            (stored (measureDistance duration)) ∧
          c.sampleCount.toNat < c.measurements.length) := by
  have hinv := inv_reachable c h
  obtain ⟨hlen, h0, h15, hm⟩ := hinv
  refine ⟨h0, h15, rfl, hlen, hm, ?_, ?_⟩
  · intro t0 t1 t2 duration
    obtain ⟨c', h1, _⟩ :=
      inv_loopWith t0 t1 t2 (measureDistance duration) c ⟨hlen, h0, h15, hm⟩
    exact ⟨c', h1⟩
  · intro t1 duration hs hdue
    have hlt := hm hs
    unfold NUM_SAMPLES at hlt
    unfold processMeasurement processMeasurementWith
    rw [if_pos hdue, takeSample_eq, if_pos ⟨h0, hlt⟩]
    obtain ⟨_, _, e3, _⟩ := evaluate_fields (store t1 (measureDistance duration) c)
    have hi : c.sampleCount.toNat < c.measurements.length := by rw [hlen]; omega
    split_ifs
    · exact ⟨_, rfl, by rw [e3]; rfl, hi⟩
    · exact ⟨_, rfl, rfl, hi⟩

/-- Witness of C7: the state right after `setup`. -/
theorem reachable_sampleCount_bounds_witness :
    0 ≤ (setup 0 initCtx).sampleCount ∧ (setup 0 initCtx).sampleCount ≤ NUM_SAMPLES ∧
      ∃ c' : Ctx, loop 200 200 200 560 (setup 0 initCtx) = some c' := by
  obtain ⟨h1, h2, _, _, _, h3, _⟩ :=
    reachable_sampleCount_bounds (setup 0 initCtx) (Reachable.setup 0)
  exact ⟨h1, h2, h3 200 200 200 560⟩

/-- C8: from the state right after `startMeasurement`, with no further call of it and for
every sequence of probe results: `k < 15` due ticks leave the state `MEASURING` with
`sampleCount = k`, `lastValidAvg` unchanged and no evaluation on the output; fifteen due
ticks leave the state `READY` with exactly one evaluation on the output, and from then on
the guarded call of `loop` does nothing, so the batch is not evaluated again. -/
theorem batch_evaluated_once (ctx : Ctx) (t0 : ℕ) (ticks : List (ℕ × ℚ))
    (hlen : ctx.measurements.length = 15) (hdue : AllDue ticks t0) :
    (ticks.length < 15 →
      ∃ s : Ctx, runTicks ticks (startMeasurement t0 ctx) = some s ∧
        s.state = MeasurementState.MEASURING ∧ s.sampleCount = (ticks.length : ℤ) ∧
        s.lastValidAvg = ctx.lastValidAvg ∧ evalCount s.serial = evalCount ctx.serial) ∧
    (ticks.length = 15 →
      ∃ s : Ctx, runTicks ticks (startMeasurement t0 ctx) = some s ∧
        s.state = MeasurementState.READY ∧
        evalCount s.serial = evalCount ctx.serial + 1 ∧
        (∀ (t : ℕ) (d : ℚ), guardedTick t d s = some s)) := by
  have hs := startMeasurement_fields t0 ctx hlen
  obtain ⟨f1, f2, f3, _, f5⟩ := collect_fields ticks (startMeasurement t0 ctx)
  have hd : AllDue ticks (startMeasurement t0 ctx).lastMeasureTime := by
    rw [hs]; exact hdue
  have h0 : (startMeasurement t0 ctx).sampleCount = 0 := by rw [hs]
  constructor
  · intro hk
    refine ⟨collect ticks (startMeasurement t0 ctx), ?_, ?_, ?_, ?_, ?_⟩
    · exact runTicks_collect ticks _ hd (by rw [h0]) (by rw [h0]; omega)
    · rw [f1, hs]
    · rw [f2, h0]; omega
    · rw [f3, hs]
    · rw [f5, hs]
  · intro hk
    have hne : ticks ≠ [] := by
      intro h; rw [h] at hk; simp at hk
    obtain ⟨e1, _⟩ := evaluate_fields (collect ticks (startMeasurement t0 ctx))
    refine ⟨evaluate (collect ticks (startMeasurement t0 ctx)), ?_, e1, ?_, ?_⟩
    · exact runTicks_seal ticks _ hd (by rw [h0]) (by rw [h0, hk]; norm_num) hne
    · rw [evaluate_evalCount, f5, hs]
    · intro t d
      apply guardedTick_idle
      rw [e1]
      decide

/-- Witness of C8: fifteen ticks 200 ms apart after a start at time 0. -/
theorem batch_evaluated_once_witness :
    AllDue (ticksOf (List.replicate 15 96)) 0 ∧
      ∃ s : Ctx, runTicks (ticksOf (List.replicate 15 96)) (startMeasurement 0 initCtx)
          = some s ∧
        s.state = MeasurementState.READY ∧
        evalCount s.serial = evalCount initCtx.serial + 1 := by
  refine ⟨by decide!, ?_⟩
  obtain ⟨s, h1, h2, h3, _⟩ :=
    (batch_evaluated_once initCtx 0 (ticksOf (List.replicate 15 96)) (by decide!)
      (by decide!)).2 (by decide!)
  exact ⟨s, h1, h2, h3⟩

/-- C9: from every state, `startMeasurement` yields a state with `sampleCount = 0`,
`measurementErrors = 0`, all 15 buffer slots equal to the sentinel `-1`, `lastMeasureTime`
equal to the clock value and state `MEASURING`; it evaluates nothing: `lastValidAvg`,
`lastDisplayTime` and the output are unchanged; and the result does not depend on the
samples, counters or state it discards. -/
theorem startMeasurement_resets (now : ℕ) (ctx : Ctx) (hlen : ctx.measurements.length = 15) :
    (startMeasurement now ctx).sampleCount = 0 ∧
      (startMeasurement now ctx).measurementErrors = 0 ∧
      (startMeasurement now ctx).measurements = List.replicate 15 (-1) ∧
      (startMeasurement now ctx).lastMeasureTime = now ∧
      (startMeasurement now ctx).state = MeasurementState.MEASURING ∧
      (startMeasurement now ctx).lastValidAvg = ctx.lastValidAvg ∧
      (startMeasurement now ctx).lastDisplayTime = ctx.lastDisplayTime ∧
      (startMeasurement now ctx).serial = ctx.serial ∧
      (∀ other : Ctx, other.measurements.length = 15 →
        other.lastValidAvg = ctx.lastValidAvg →
        other.lastDisplayTime = ctx.lastDisplayTime → other.serial = ctx.serial →
        startMeasurement now other = startMeasurement now ctx) := by
  have hs := startMeasurement_fields now ctx hlen
  refine ⟨by rw [hs], by rw [hs], by rw [hs], by rw [hs], by rw [hs], by rw [hs], by rw [hs],
    by rw [hs], ?_⟩
  intro other ho h1 h2 h3
  rw [hs, startMeasurement_fields now other ho, h1, h2, h3]

/-- Witness of C9: a restart in the middle of a batch, after five ticks. -/
theorem startMeasurement_resets_witness :
    (collect (ticksOf [96, -1, 96, 96, 96]) (setup 0 initCtx)).sampleCount = 5 ∧
      (startMeasurement 1200
        (collect (ticksOf [96, -1, 96, 96, 96]) (setup 0 initCtx))).sampleCount = 0 ∧
      (startMeasurement 1200
        (collect (ticksOf [96, -1, 96, 96, 96]) (setup 0 initCtx))).measurements
          = List.replicate 15 (-1) :=
  ⟨by decide!,
    (startMeasurement_resets 1200 (collect (ticksOf [96, -1, 96, 96, 96]) (setup 0 initCtx))
      (by decide!)).1,
    (startMeasurement_resets 1200 (collect (ticksOf [96, -1, 96, 96, 96]) (setup 0 initCtx))
      (by decide!)).2.2.1⟩

/-- C10: from a fresh batch (after `startMeasurement`), whatever `lastValidAvg` was, for
every arrangement of 13 samples of 96.0 mm and 2 no-echo samples over the 15 due ticks, the
batch is accepted, `lastValidAvg` is 96.0 afterwards and `getWaterLevel` returns 100. -/
theorem scenario_13_of_15 (ctx : Ctx) (t0 : ℕ) (ticks : List (ℕ × ℚ))
    (hlen : ctx.measurements.length = 15) (hdue : AllDue ticks t0)
    (hk : ticks.length = 15)
    (hvals : ∀ p ∈ ticks, p.2 = 96 ∨ p.2 = -1)
    (h13 : (ticks.filter (fun p => decide (p.2 = 96))).length = 13) :
    ∃ s : Ctx, runTicks ticks (startMeasurement t0 ctx) = some s ∧
      s.lastValidAvg = 96 ∧ getWaterLevel s = 100 ∧
      s.serial.getLast? = some (SerialEvent.ok 13 96 96 96) := by
  have hs := startMeasurement_fields t0 ctx hlen
  have hd : AllDue ticks (startMeasurement t0 ctx).lastMeasureTime := by
    rw [hs]; exact hdue
  have h0 : (startMeasurement t0 ctx).sampleCount = 0 := by rw [hs]
  have hne : ticks ≠ [] := by
    intro h; rw [h] at hk; simp at hk
  have hrun := runTicks_seal ticks _ hd (by rw [h0]) (by rw [h0, hk]; norm_num) hne
  have hm : (collect ticks (startMeasurement t0 ctx)).measurements
      = ticks.map (fun p => stored p.2) := by
    have := collect_measurements ticks (startMeasurement t0 ctx) [] (List.replicate 15 (-1))
      (by rw [hs]; rfl) (by rw [h0]; rfl) (by simp [hk])
    rw [this, hk]
    simp
  have hv : validSamples (collect ticks (startMeasurement t0 ctx)).measurements
      = List.replicate 13 96 := by
    rw [hm, validSamples_scenario ticks hvals, h13]
  have hl : (collect ticks (startMeasurement t0 ctx)).measurements.length = 15 := by
    rw [hm]; simp [hk]
  have hev := evaluate_accept (collect ticks (startMeasurement t0 ctx)) hl
    (by rw [hv]; simp)
  rw [hv] at hev
  have a1 : fl32 (floatSum (List.replicate 13 96) / ((List.replicate 13 (96 : ℚ)).length : ℚ))
      = 96 := by decide!
  have a2 : (List.replicate 13 (96 : ℚ)).foldl (fun acc x => if x < acc then x else acc) 999
      = 96 := by decide!
  have a3 : (List.replicate 13 (96 : ℚ)).foldl (fun acc x => if x > acc then x else acc) 0
      = 96 := by decide!
  have a4 : (((List.replicate 13 (96 : ℚ)).length : ℕ) : ℤ) = 13 := by decide!
  rw [a1, a2, a3, a4] at hev
  have havg : (evaluate (collect ticks (startMeasurement t0 ctx))).lastValidAvg = 96 := by
    rw [hev]
  refine ⟨_, hrun, havg, ?_, ?_⟩
  · rw [getWaterLevel_congr _ (withReading 96) (by rw [havg]; rfl)]
    decide!
  · rw [hev]
    simp

/-- Witness of C10: the two no-echo samples at the fourth and the tenth tick. -/
theorem scenario_13_of_15_witness :
    AllDue (ticksOf [96, 96, 96, -1, 96, 96, 96, 96, 96, -1, 96, 96, 96, 96, 96]) 0 ∧
      ∃ s : Ctx,
        runTicks (ticksOf [96, 96, 96, -1, 96, 96, 96, 96, 96, -1, 96, 96, 96, 96, 96])
            (startMeasurement 0 (withReading 150)) = some s ∧
          s.lastValidAvg = 96 ∧ getWaterLevel s = 100 ∧
          s.serial.getLast? = some (SerialEvent.ok 13 96 96 96) :=
  ⟨by decide!,
    scenario_13_of_15 (withReading 150) 0
      (ticksOf [96, 96, 96, -1, 96, 96, 96, 96, 96, -1, 96, 96, 96, 96, 96])
      (by decide!) (by decide!) (by decide!) (by decide!) (by decide!)⟩

/-- C11: `lastValidAvg` is written only by the batch evaluation.  `startMeasurement`, a
`processMeasurement` call that is not due, a due call that does not fill the buffer and the
report of `loop` all leave it unchanged; a call of `processMeasurement` that changes it is
due and is the one that brings `sampleCount` from 14 to 15.  `getWaterLevel` is a function
of the state that returns the level only, and its result depends on no field but
`lastValidAvg`. -/
theorem lastValidAvg_written_by_evaluation (ctx : Ctx) (t : ℕ) (d : ℚ) :
    (∀ now : ℕ, (startMeasurement now ctx).lastValidAvg = ctx.lastValidAvg) ∧
      (subU32 t ctx.lastMeasureTime < MEASUREMENT_INTERVAL_MS →
        processMeasurementWith t d ctx = some ctx) ∧
      (subU32 t ctx.lastMeasureTime ≥ MEASUREMENT_INTERVAL_MS →
        0 ≤ ctx.sampleCount → ctx.sampleCount < 14 →
        ∃ ctx' : Ctx, processMeasurementWith t d ctx = some ctx' ∧
          ctx'.sampleCount = ctx.sampleCount + 1 ∧
          ctx'.lastValidAvg = ctx.lastValidAvg) ∧
      (∀ ctx' : Ctx, processMeasurementWith t d ctx = some ctx' →
        ctx'.lastValidAvg ≠ ctx.lastValidAvg →
        subU32 t ctx.lastMeasureTime ≥ MEASUREMENT_INTERVAL_MS ∧
          ctx.sampleCount = 14 ∧ ctx'.sampleCount = 15) ∧
      (∀ t0 t2 : ℕ, (report t0 t2 ctx).lastValidAvg = ctx.lastValidAvg) ∧
      (∀ other : Ctx, other.lastValidAvg = ctx.lastValidAvg →
        getWaterLevel other = getWaterLevel ctx) := by
  refine ⟨fun now => rfl, processMeasurementWith_not_due t d ctx, ?_, ?_, ?_, ?_⟩
  · intro hdue h0 h14
    exact ⟨store t d ctx, processMeasurementWith_collect t d ctx h0 h14 hdue, rfl, rfl⟩
  · intro ctx' hrun hne
    by_cases hdue : subU32 t ctx.lastMeasureTime ≥ MEASUREMENT_INTERVAL_MS
    · rw [processMeasurementWith_due t d ctx hdue] at hrun
      by_cases hin : 0 ≤ ctx.sampleCount ∧ ctx.sampleCount < 15
      · rw [if_pos hin] at hrun
        by_cases hfull : ctx.sampleCount + 1 ≥ 15
        · rw [if_pos hfull] at hrun
          have hc : ctx.sampleCount = 14 := by omega
          refine ⟨hdue, hc, ?_⟩
          have e := Option.some.inj hrun
          rw [← e, (evaluate_fields (store t d ctx)).2.1]
          simp only [store]
          omega
        · rw [if_neg hfull] at hrun
          have e := Option.some.inj hrun
          exact absurd (by rw [← e]; rfl) hne
      · rw [if_neg hin] at hrun
        exact absurd hrun (by simp)
    · rw [processMeasurementWith_not_due t d ctx (not_le.mp hdue)] at hrun
      have e := Option.some.inj hrun
      exact absurd (by rw [← e]) hne
  · intro t0 t2
    unfold report
    split_ifs <;> rfl
  · intro other h
    exact getWaterLevel_congr other ctx h

/-- Witness of C11: the third due tick of a batch leaves the published reading of
120 mm in place. -/
theorem lastValidAvg_written_by_evaluation_witness :
    ∃ ctx' : Ctx,
      processMeasurementWith 600 96
          (collect (ticksOf [96, -1]) (startMeasurement 0 (withReading 120))) = some ctx' ∧
        ctx'.sampleCount =
          (collect (ticksOf [96, -1]) (startMeasurement 0 (withReading 120))).sampleCount + 1 ∧
        ctx'.lastValidAvg =
          (collect (ticksOf [96, -1]) (startMeasurement 0 (withReading 120))).lastValidAvg :=
  (lastValidAvg_written_by_evaluation
    (collect (ticksOf [96, -1]) (startMeasurement 0 (withReading 120))) 600 96).2.2.1
    (by decide!) (by decide!) (by decide!)

/-- C12: a call of `processMeasurement` with `currentTime - lastMeasureTime < 200` (the
unsigned difference of the source) is a no-op for every state: whatever the probe would
read, the state, output included, is returned unchanged, so no probe is taken.  A call with
a difference of at least 200 takes exactly one probe (one mark more on the output) and sets
`lastMeasureTime` to the clock value. -/
theorem processMeasurement_paced (ctx : Ctx) (t : ℕ) :
    (subU32 t ctx.lastMeasureTime < MEASUREMENT_INTERVAL_MS →
        (∀ duration : ℤ, processMeasurement t duration ctx = some ctx) ∧
          ∀ d : ℚ, processMeasurementWith t d ctx = some ctx) ∧
      (subU32 t ctx.lastMeasureTime ≥ MEASUREMENT_INTERVAL_MS →
        (0 ≤ ctx.sampleCount → ctx.sampleCount < 15 →
          ∀ duration : ℤ, ∃ ctx' : Ctx, processMeasurement t duration ctx = some ctx') ∧
        ∀ (duration : ℤ) (ctx' : Ctx), processMeasurement t duration ctx = some ctx' →
          ctx'.lastMeasureTime = t ∧
            probeCount ctx'.serial = probeCount ctx.serial + 1) := by
  constructor
  · intro h
    exact ⟨fun duration => processMeasurementWith_not_due t _ ctx h,
      fun d => processMeasurementWith_not_due t d ctx h⟩
  · intro hdue
    constructor
    · intro h0 h15 duration
      unfold processMeasurement
      rw [processMeasurementWith_due t _ ctx hdue, if_pos ⟨h0, h15⟩]
      split_ifs <;> exact ⟨_, rfl⟩
    · intro duration ctx' hrun
      unfold processMeasurement at hrun
      rw [processMeasurementWith_due t _ ctx hdue] at hrun
      by_cases hin : 0 ≤ ctx.sampleCount ∧ ctx.sampleCount < 15
      · rw [if_pos hin] at hrun
        by_cases hfull : ctx.sampleCount + 1 ≥ 15
        · rw [if_pos hfull] at hrun
          have e := Option.some.inj hrun
          rw [← e, (evaluate_fields _).2.2.2.2.1, evaluate_probeCount, store_probeCount]
          exact ⟨rfl, rfl⟩
        · rw [if_neg hfull] at hrun
          have e := Option.some.inj hrun
          rw [← e, store_probeCount]
          exact ⟨rfl, rfl⟩
      · rw [if_neg hin] at hrun
        exact absurd hrun (by simp)

/-- Witness of C12: 150 ms after a sample nothing happens, 200 ms after it a probe is
taken. -/
theorem processMeasurement_paced_witness :
    processMeasurement 150 560 (startMeasurement 0 initCtx)
        = some (startMeasurement 0 initCtx) ∧
      ∃ ctx' : Ctx, processMeasurement 200 560 (startMeasurement 0 initCtx) = some ctx' :=
  ⟨((processMeasurement_paced (startMeasurement 0 initCtx) 150).1 (by decide!)).1 560,
    ((processMeasurement_paced (startMeasurement 0 initCtx) 200).2 (by decide!)).1
      (by decide!) (by decide!) 560⟩

/-- C14: `getWaterLevel` returns the marker `-1` if and only if `lastValidAvg < 0`; for
every `lastValidAvg ≥ 0`, 0 included, it returns a percentage in `[0, 100]`. -/
theorem getWaterLevel_unavailable_iff (ctx : Ctx) :
    (getWaterLevel ctx = -1 ↔ ctx.lastValidAvg < 0) ∧
      (0 ≤ ctx.lastValidAvg → 0 ≤ getWaterLevel ctx ∧ getWaterLevel ctx ≤ 100) := by
  refine ⟨⟨?_, getWaterLevel_of_neg ctx⟩, getWaterLevel_bounds ctx⟩
  intro h
  by_contra hn
  have := (getWaterLevel_bounds ctx (not_lt.mp hn)).1
  omega

/-- Witness of C14: the reading 0 mm, for which the level is 100. -/
theorem getWaterLevel_unavailable_iff_witness :
    (0 : ℚ) ≤ (withReading 0).lastValidAvg ∧
      (0 ≤ getWaterLevel (withReading 0) ∧ getWaterLevel (withReading 0) ≤ 100) ∧
      getWaterLevel (withReading 0) = 100 :=
  ⟨by decide!, (getWaterLevel_unavailable_iff (withReading 0)).2 (by decide!), by decide!⟩

/-- C19: the due check of `processMeasurement` and the report check of `loop` are made on
differences modulo `2 ^ 32`, so they survive a wrap-around of the clock: whatever
`lastMeasureTime` (or `lastDisplayTime`) is, if the true elapsed time is `e < 2 ^ 32` and
the clock reads `(last + e) mod 2 ^ 32`, the computed difference is `e`; the tick is due if
and only if `e ≥ 200` and the report if and only if `e ≥ 5000`. -/
theorem due_check_wraps (ctx : Ctx) (e : ℕ) (d : ℚ) (he : e < 4294967296) :
    subU32 ((ctx.lastMeasureTime + e) % 4294967296) ctx.lastMeasureTime = (e : ℤ) ∧
      (subU32 ((ctx.lastMeasureTime + e) % 4294967296) ctx.lastMeasureTime
          ≥ MEASUREMENT_INTERVAL_MS ↔ 200 ≤ e) ∧
      (e < 200 →
        processMeasurementWith ((ctx.lastMeasureTime + e) % 4294967296) d ctx = some ctx) ∧
      (200 ≤ e →
        processMeasurementWith ((ctx.lastMeasureTime + e) % 4294967296) d ctx
          = takeSample ((ctx.lastMeasureTime + e) % 4294967296) d ctx) ∧
      (subU32 ((ctx.lastDisplayTime + e) % 4294967296) ctx.lastDisplayTime ≥ 5000
        ↔ 5000 ≤ e) ∧
      (e < 5000 → ∀ t2 : ℕ,
        report ((ctx.lastDisplayTime + e) % 4294967296) t2 ctx = ctx) := by
  have h1 := subU32_wrap ctx.lastMeasureTime e he
  have h2 := subU32_wrap ctx.lastDisplayTime e he
  refine ⟨h1, ?_, ?_, ?_, ?_, ?_⟩
  · rw [h1]; unfold MEASUREMENT_INTERVAL_MS; omega
  · intro h
    apply processMeasurementWith_not_due
    rw [h1]; unfold MEASUREMENT_INTERVAL_MS; omega
  · intro h
    unfold processMeasurementWith
    rw [if_pos (by rw [h1]; unfold MEASUREMENT_INTERVAL_MS; omega)]
  · rw [h2]; omega
  · intro h t2
    unfold report
    rw [if_neg (by rw [h2]; omega)]

/-- Witness of C19: the last sample 100 ms before the clock wraps, the next call 250 ms
after it, when the clock reads 150. -/
theorem due_check_wraps_witness :
    (startMeasurement 4294967196 initCtx).lastMeasureTime = 4294967196 ∧
      (4294967196 + 250) % 4294967296 = 150 ∧
      subU32 (((startMeasurement 4294967196 initCtx).lastMeasureTime + 250) % 4294967296)
        (startMeasurement 4294967196 initCtx).lastMeasureTime = 250 :=
  ⟨by decide!, by decide,
    (due_check_wraps (startMeasurement 4294967196 initCtx) 250 96 (by decide)).1⟩

/-- C15: in a state with `state = MEASURING` and `sampleCount = k < 15`, a due tick of
`processMeasurement` with probe result `d` stores `d` in slot `k` when `d > 0` and the
sentinel `-1` otherwise, adds 1 to `measurementErrors` exactly when `d` is invalid, sets
`sampleCount` to `k + 1` and leaves every other slot unchanged.  So the samples of a batch
fill the buffer in arrival order: after the due ticks `ticks` of a batch the buffer is
their stored values followed by sentinels. -/
theorem due_tick_stores (ctx : Ctx) (t : ℕ) (d : ℚ) (k : ℕ)
    (hstate : ctx.state = MeasurementState.MEASURING)
    (hlen : ctx.measurements.length = 15)
    (hk : ctx.sampleCount = (k : ℤ)) (hk15 : k < 15)
    (hdue : subU32 t ctx.lastMeasureTime ≥ MEASUREMENT_INTERVAL_MS) :
    (∃ ctx' : Ctx, processMeasurementWith t d ctx = some ctx' ∧
        guardedTick t d ctx = some ctx' ∧
        ctx'.measurements[k]? = some (if d > 0 then d else -1) ∧
        (∀ i : ℕ, i ≠ k → ctx'.measurements[i]? = ctx.measurements[i]?) ∧
        ctx'.measurementErrors = ctx.measurementErrors + (if d > 0 then 0 else 1) ∧
        ctx'.sampleCount = (k : ℤ) + 1) ∧
      (∀ (c0 : Ctx) (t0 : ℕ) (ticks : List (ℕ × ℚ)), c0.measurements.length = 15 →
        AllDue ticks t0 → ticks.length ≤ 15 →
        ∃ s : Ctx, runTicks ticks (startMeasurement t0 c0) = some s ∧
          s.measurements
            = (ticks.map fun p => if p.2 > 0 then p.2 else -1)
              ++ List.replicate (15 - ticks.length) (-1)) := by
  constructor
  · have hin : 0 ≤ ctx.sampleCount ∧ ctx.sampleCount < 15 := by omega
    have hrun := processMeasurementWith_due t d ctx hdue
    rw [if_pos hin] at hrun
    have hg : guardedTick t d ctx = processMeasurementWith t d ctx := by
      unfold guardedTick
      rw [if_pos hstate]
    have hm : (store t d ctx).measurements = ctx.measurements.set k (stored d) := by
      simp [store, hk]
    have hslot : (ctx.measurements.set k (stored d))[k]? = some (if d > 0 then d else -1) := by
      rw [List.getElem?_set_self (by rw [hlen]; exact hk15)]
      rfl
    have hother : ∀ i : ℕ, i ≠ k →
        (ctx.measurements.set k (stored d))[i]? = ctx.measurements[i]? := by
      intro i hi
      exact List.getElem?_set_ne (Ne.symm hi)
    by_cases hfull : ctx.sampleCount + 1 ≥ 15
    · rw [if_pos hfull] at hrun
      obtain ⟨_, e2, e3, e4, _, _⟩ := evaluate_fields (store t d ctx)
      refine ⟨_, hrun, by rw [hg, hrun], by rw [e3, hm]; exact hslot, ?_, by rw [e4]; rfl, ?_⟩
      · intro i hi; rw [e3, hm]; exact hother i hi
      · rw [e2]; simp only [store]; omega
    · rw [if_neg hfull] at hrun
      refine ⟨_, hrun, by rw [hg, hrun], by rw [hm]; exact hslot, ?_, rfl, ?_⟩
      · intro i hi; rw [hm]; exact hother i hi
      · simp only [store]; omega
  · intro c0 t0 ticks hlen0 hdue0 hk0
    obtain ⟨r1, r2⟩ := runTicks_fresh c0 t0 ticks hlen0 hdue0 hk0
    obtain ⟨m1, _, _⟩ := collect_fresh c0 t0 ticks hlen0 hk0
    rcases Nat.lt_or_ge ticks.length 15 with h | h
    · exact ⟨_, r1 h, m1⟩
    · refine ⟨_, r2 (by omega), ?_⟩
      rw [(evaluate_fields _).2.2.1]
      exact m1

/-- Witness of C15: the third sample of a batch, a no-echo, goes to slot 2. -/
theorem due_tick_stores_witness :
    ∃ ctx' : Ctx,
      processMeasurementWith 600 (-1)
          (collect (ticksOf [96, 96]) (startMeasurement 0 initCtx)) = some ctx' ∧
        ctx'.measurements[2]? = some (-1 : ℚ) ∧
        ctx'.measurementErrors
          = (collect (ticksOf [96, 96]) (startMeasurement 0 initCtx)).measurementErrors + 1 ∧
        ctx'.sampleCount = 3 := by
  obtain ⟨c, h1, _, h3, _, h5, h6⟩ :=
    (due_tick_stores (collect (ticksOf [96, 96]) (startMeasurement 0 initCtx)) 600 (-1) 2
      (by decide!) (by decide!) (by decide!) (by decide) (by decide!)).1
  refine ⟨c, h1, ?_, ?_, ?_⟩
  · rw [h3]; norm_num
  · rw [h5]; norm_num
  · rw [h6]; norm_num

/-- C16: after any number of due ticks of a batch started by `startMeasurement`,
`measurementErrors` is the number of sentinel entries among the first `sampleCount` buffer
slots and every slot from index `sampleCount` on holds the sentinel.  So when the
fifteenth tick evaluates the batch, the `validCount` of the scan is
`NUM_SAMPLES - measurementErrors`, and the batch is accepted exactly when
`measurementErrors ≤ 3`: then `lastValidAvg` is overwritten and an "OK" line printed,
otherwise `lastValidAvg` is kept and a "FAIL" line printed. -/
theorem errors_count_sentinels (c0 : Ctx) (t0 : ℕ) (ticks : List (ℕ × ℚ))
    (hlen : c0.measurements.length = 15) (hdue : AllDue ticks t0)
    (hk : ticks.length ≤ 15) :
    ∃ s : Ctx, runTicks ticks (startMeasurement t0 c0) = some s ∧
      s.sampleCount = (ticks.length : ℤ) ∧
      s.measurementErrors = (((s.measurements.take ticks.length).count (-1) : ℕ) : ℤ) ∧
      s.measurements.drop ticks.length = List.replicate (15 - ticks.length) (-1) ∧
      (ticks.length = 15 →
        (scanBatch s.measurements).validCount = NUM_SAMPLES - s.measurementErrors ∧
        (((scanBatch s.measurements).validCount : ℚ) ≥ threshold
          ↔ s.measurementErrors ≤ 3) ∧
        (s.measurementErrors ≤ 3 →
          s.lastValidAvg = fl32 (floatSum (validSamples s.measurements)
            / ((15 - s.measurementErrors : ℤ) : ℚ)) ∧
          ∃ minVal maxVal : ℚ, s.serial.getLast?
            = some (SerialEvent.ok (15 - s.measurementErrors) minVal maxVal s.lastValidAvg)) ∧
        (3 < s.measurementErrors →
          s.lastValidAvg = c0.lastValidAvg ∧
          s.serial.getLast? = some (SerialEvent.fail (15 - s.measurementErrors)))) := by
  obtain ⟨r1, r2⟩ := runTicks_fresh c0 t0 ticks hlen hdue hk
  obtain ⟨m1, m2, m3⟩ := collect_fresh c0 t0 ticks hlen hk
  set c := collect ticks (startMeasurement t0 c0) with hc
  have htake : (c.measurements.take ticks.length).count (-1)
      = ticks.countP fun p => decide (p.2 ≤ 0) := by
    rw [m1, List.take_left' (by simp), count_sentinel_stored]
  have hdrop : c.measurements.drop ticks.length
      = List.replicate (15 - ticks.length) (-1) := by
    rw [m1, List.drop_left' (by simp)]
  rcases Nat.lt_or_ge ticks.length 15 with h | h
  · refine ⟨c, r1 h, m2, by rw [htake]; exact m3, hdrop, ?_⟩
    intro h15
    omega
  · have h15 : ticks.length = 15 := by omega
    obtain ⟨_, e2, e3, e4, _, _⟩ := evaluate_fields c
    have hlenc : c.measurements.length = 15 := by
      rw [m1]; simp [h15]
    have hvalid : ((validSamples c.measurements).length : ℤ) = 15 - c.measurementErrors := by
      have h1 := valid_length_stored ticks
      rw [m1, validSamples_append_sentinels, m3]
      omega
    have hscan : (scanBatch c.measurements).validCount = 15 - c.measurementErrors := by
      rw [scanBatch_eq _ hlenc]
      exact hvalid
    have hacc : ((scanBatch c.measurements).validCount : ℚ) ≥ threshold
        ↔ c.measurementErrors ≤ 3 := by
      rw [hscan, threshold_eq]
      constructor
      · intro h1
        have : (12 : ℤ) ≤ 15 - c.measurementErrors := by exact_mod_cast h1
        omega
      · intro h1
        have : (12 : ℤ) ≤ 15 - c.measurementErrors := by omega
        exact_mod_cast this
    refine ⟨evaluate c, r2 h15, by rw [e2]; exact m2, ?_, by rw [e3]; exact hdrop, ?_⟩
    · rw [e3, e4, htake]; exact m3
    · intro _
      rw [e3, e4]
      refine ⟨hscan, hacc, ?_, ?_⟩
      · intro hle
        have hv12 : 12 ≤ (validSamples c.measurements).length := by omega
        have hev := evaluate_accept c hlenc hv12
        have hq : (((validSamples c.measurements).length : ℕ) : ℚ)
            = ((15 - c.measurementErrors : ℤ) : ℚ) := by
          rw [← hvalid]; simp
        rw [hvalid, hq] at hev
        rw [hev]
        exact ⟨rfl, _, _, List.getLast?_concat _⟩
      · intro hgt
        have hv12 : (validSamples c.measurements).length < 12 := by omega
        have hev := evaluate_reject c hlenc hv12
        rw [hvalid] at hev
        rw [hev]
        refine ⟨?_, by simp⟩
        show c.lastValidAvg = c0.lastValidAvg
        rw [hc, (collect_fields ticks _).2.2.1]
        rfl

/-- Witness of C16: a batch with four no-echo samples is rejected. -/
theorem errors_count_sentinels_witness :
    AllDue (ticksOf [96, -1, 96, 96, -1, 96, 96, 96, -1, 96, 96, 96, 96, -1, 96]) 0 ∧
      ∃ s : Ctx,
        runTicks (ticksOf [96, -1, 96, 96, -1, 96, 96, 96, -1, 96, 96, 96, 96, -1, 96])
            (startMeasurement 0 (withReading 120)) = some s ∧
          s.sampleCount = 15 ∧
          s.measurementErrors = (((s.measurements.take 15).count (-1) : ℕ) : ℤ) := by
  refine ⟨by decide!, ?_⟩
  obtain ⟨s, h1, h2, h3, _⟩ :=
    errors_count_sentinels (withReading 120) 0
      (ticksOf [96, -1, 96, 96, -1, 96, 96, 96, -1, 96, 96, 96, 96, -1, 96])
      (by decide!) (by decide!) (by decide!)
  exact ⟨s, h1, h2, h3⟩

/-- C17: for every integer echo duration `t` (in microseconds), `measureDistance` returns a
valid, non-sentinel distance if and only if `292 ≤ t ≤ 1749`; these are also exactly the
integers for which `(t / 2) * 0.343` lies in `[50, 300]`. -/
theorem measureDistance_valid_iff (t : ℤ) :
    (measureDistance t ≠ -1 ↔ 292 ≤ t ∧ t ≤ 1749) ∧
      (50 ≤ (t : ℚ) / 2 * (343 / 1000) ∧ (t : ℚ) / 2 * (343 / 1000) ≤ 300
        ↔ 292 ≤ t ∧ t ≤ 1749) := by
  obtain ⟨w1, w2, w3, w4⟩ := distance_mm_window
  constructor
  · constructor
    · intro h
      unfold measureDistance at h
      by_cases h0 : t = 0
      · rw [if_pos h0] at h
        exact absurd rfl h
      · rw [if_neg h0] at h
        by_cases hout : distance_mm t > 300 ∨ distance_mm t < 50
        · rw [if_pos hout] at h
          exact absurd rfl h
        · have hlo : 50 ≤ distance_mm t := not_lt.mp (fun e => hout (Or.inr e))
          have hhi : distance_mm t ≤ 300 := not_lt.mp (fun e => hout (Or.inl e))
          constructor
          · by_contra hc
            have := distance_mm_mono t 291 (by omega)
            linarith
          · by_contra hc
            have := distance_mm_mono 1750 t (by omega)
            linarith
    · rintro ⟨h1, h2⟩
      have hlo : 50 ≤ distance_mm t := le_trans w2 (distance_mm_mono 292 t h1)
      have hhi : distance_mm t ≤ 300 := le_trans (distance_mm_mono t 1749 h2) w3
      unfold measureDistance
      rw [if_neg (by omega), if_neg (by
        rintro (h | h)
        · exact absurd hhi (not_le.mpr h)
        · exact absurd hlo (not_le.mpr h))]
      intro e
      rw [e] at hlo
      norm_num at hlo
  · constructor
    · rintro ⟨h1, h2⟩
      have a1 : ((100000 : ℤ) : ℚ) ≤ ((343 * t : ℤ) : ℚ) := by push_cast; linarith
      have a2 : ((343 * t : ℤ) : ℚ) ≤ ((600000 : ℤ) : ℚ) := by push_cast; linarith
      have b1 : (100000 : ℤ) ≤ 343 * t := by exact_mod_cast a1
      have b2 : 343 * t ≤ (600000 : ℤ) := by exact_mod_cast a2
      constructor <;> omega
    · rintro ⟨h1, h2⟩
      have a1 : ((292 : ℤ) : ℚ) ≤ (t : ℚ) := by exact_mod_cast h1
      have a2 : (t : ℚ) ≤ ((1749 : ℤ) : ℚ) := by exact_mod_cast h2
      push_cast at a1 a2
      constructor <;> linarith

/-- C18: `getWaterLevel` is non-increasing in the published distance: for readings
`0 ≤ r1 ≤ r2` the level at `r1` is at least the level at `r2`.  It is 100 for every reading
`r ≤ 96` (`r ≥ 0`), 0 for every `float` reading `r > 198.96`, and 0 for every reading
`r ≥ 200`. -/
theorem getWaterLevel_antitone (c₁ c₂ : Ctx) (h0 : 0 ≤ c₁.lastValidAvg)
    (h12 : c₁.lastValidAvg ≤ c₂.lastValidAvg) :
    getWaterLevel c₂ ≤ getWaterLevel c₁ ∧
      (c₁.lastValidAvg ≤ 96 → getWaterLevel c₁ = 100) ∧
      (fl32 c₂.lastValidAvg = c₂.lastValidAvg → c₂.lastValidAvg > 19896 / 100 →
        getWaterLevel c₂ = 0) ∧
      (200 ≤ c₂.lastValidAvg → getWaterLevel c₂ = 0) := by
  have h2 : 0 ≤ c₂.lastValidAvg := le_trans h0 h12
  have lvl0 : ∀ r : ℚ, 13039043 / 65536 ≤ r →
      clampLevel toInt (fl32 (fl32 (fl32 (200 - r) / 104) * 100)) = 0 := by
    intro r hr
    have e : clampLevel toInt (fl32 (fl32 (fl32 (200 - 13039043 / 65536) / 104) * 100)) = 0 := by
      decide!
    have h1 := clampLevel_mono _ _ (levelValue_anti _ _ hr)
    rw [e] at h1
    have h3 : 0 ≤ clampLevel toInt (fl32 (fl32 (fl32 (200 - r) / 104) * 100)) := by
      unfold clampLevel
      exact le_max_left _ _
    omega
  refine ⟨?_, ?_, ?_, ?_⟩
  · rw [getWaterLevel_eq_clamp c₁ h0, getWaterLevel_eq_clamp c₂ h2]
    exact clampLevel_mono _ _ (levelValue_anti _ _ h12)
  · intro h96
    rw [getWaterLevel_eq_clamp c₁ h0]
    have e : clampLevel toInt (fl32 (fl32 (fl32 (200 - 96) / 104) * 100)) = 100 := by decide!
    have h1 := clampLevel_mono _ _ (levelValue_anti _ _ h96)
    rw [e] at h1
    have h3 : clampLevel toInt (fl32 (fl32 (fl32 (200 - c₁.lastValidAvg) / 104) * 100))
        ≤ 100 := by
      unfold clampLevel
      exact max_le (by norm_num) (min_le_left _ _)
    omega
  · intro hrep hgt
    rw [getWaterLevel_eq_clamp c₂ h2]
    apply lvl0
    have h1 := fl32_mono _ _ hgt.le
    have e : fl32 (19896 / 100) = 13039043 / 65536 := by decide!
    rw [hrep, e] at h1
    exact h1
  · intro h200
    rw [getWaterLevel_eq_clamp c₂ h2]
    apply lvl0
    linarith

/-- Witness of C18: the readings 96 mm and 13039043/65536 mm, the least `float` above
198.96 mm. -/
theorem getWaterLevel_antitone_witness :
    (withReading 96).lastValidAvg ≤ (withReading (13039043 / 65536)).lastValidAvg ∧
      getWaterLevel (withReading (13039043 / 65536)) ≤ getWaterLevel (withReading 96) ∧
      getWaterLevel (withReading 96) = 100 ∧
      getWaterLevel (withReading (13039043 / 65536)) = 0 := by
  obtain ⟨h1, h2, h3, _⟩ :=
    getWaterLevel_antitone (withReading 96) (withReading (13039043 / 65536))
      (by decide!) (by decide!)
  exact ⟨by decide!, h1, h2 (by decide!), h3 (by decide!) (by decide!)⟩

/-- C13: in every state reachable from the initial context, whose `lastValidAvg` is 96.0, by
`setup` and any sequence of `loop` iterations with arbitrary clock values and echo
durations, `lastValidAvg` is 96.0 or lies in `[50, 300]`; it is never negative, and
`getWaterLevel` never returns the marker `-1` but always a percentage in `[0, 100]`. -/
theorem reachable_reading_window (c : Ctx) (h : Reachable c) :
    initCtx.lastValidAvg = 96 ∧
      (c.lastValidAvg = 96 ∨ (50 ≤ c.lastValidAvg ∧ c.lastValidAvg ≤ 300)) ∧
      0 ≤ c.lastValidAvg ∧
      getWaterLevel c ≠ -1 ∧
      0 ≤ getWaterLevel c ∧ getWaterLevel c ≤ 100 := by
  obtain ⟨_, h1, h2⟩ := inRange_reachable c h
  have h0 : 0 ≤ c.lastValidAvg := by linarith
  obtain ⟨b1, b2⟩ := getWaterLevel_bounds c h0
  refine ⟨by decide!, Or.inr ⟨h1, h2⟩, h0, ?_, b1, b2⟩
  omega

/-- Witness of C13: the state right after `setup`. -/
theorem reachable_reading_window_witness :
    (setup 0 initCtx).lastValidAvg = 96 ∧
      getWaterLevel (setup 0 initCtx) ≠ -1 ∧
      0 ≤ getWaterLevel (setup 0 initCtx) ∧ getWaterLevel (setup 0 initCtx) ≤ 100 := by
  obtain ⟨_, _, _, h4, h5, h6⟩ :=
    reachable_reading_window (setup 0 initCtx) (Reachable.setup 0)
  exact ⟨by decide!, h4, h5, h6⟩

end WaterLevel
